import Mathlib

/-!
Verification development for the LLLang compiler front-end and mid-level IR.

Shallow embedding of the Rust sources:
  * `src/back/layout.rs`   — `Layout`, `TupleLayout::from_layouts`, `next_multiple`
  * `src/front/scope.rs`   — `Scope::declare`, `Scope::find`
  * `src/front/parser.rs`  — tokenizer and recursive-descent parser
  * `src/front/lower.rs`   — `map_constant`, `map_type` and helpers
  * `src/front/type_func.rs` — the per-function type walk

Machine integers of the source (`i32`, `u32`) are modelled as `Nat`/`Int`;
the layout code asserts all its quantities non-negative, so `Nat` models the
reachable fragment faithfully.  Fallible code returns an explicit result type
`RRes` with `ok`/`err` plus a `panic` outcome mirroring Rust panics
(`unwrap`, `assert!`) and a `spin` outcome that only signals exhausted fuel
of a loop model, never reachable for the concrete inputs used below.
-/

namespace LLLang

/-! ## Result type

Rust `Result<T, E>` together with the two abnormal outcomes we must be able
to observe: `panic` (an `unwrap`/`assert!`/`panic!` firing) and `spin`
(fuel of a modelled loop exhausted — a modelling artefact, not a behaviour
of the source). -/

inductive RRes (ε : Type) (α : Type) where
  | ok (a : α)
  | err (e : ε)
  | panic
  | spin
  deriving Repr, DecidableEq

def RRes.bind {ε α β : Type} : RRes ε α → (α → RRes ε β) → RRes ε β
  | .ok a, f => f a
  | .err e, _ => .err e
  | .panic, _ => .panic
  | .spin, _ => .spin

def RRes.isOk {ε α : Type} : RRes ε α → Bool
  | .ok _ => true
  | _ => false

instance {ε : Type} : Monad (RRes ε) where
  pure := RRes.ok
  bind := RRes.bind

/-! ## `src/back/layout.rs` -/

/-- Wrapping to a 32-bit two's-complement value (2147483648 is `2^31`,
4294967296 is `2^32`): the result of an `i32` arithmetic operation in a
release build when it overflows.  A debug build panics at exactly the
inputs where this is not the identity, so a theorem whose hypotheses make
every `wrap32` below the identity holds under both build profiles. -/
def wrap32 (x : Int) : Int :=
  (x + 2147483648) % 4294967296 - 2147483648

/-- `Layout { size, alignment }` from `src/back/layout.rs`: two `i32`
fields, modelled as integers (every value reasoned about below is kept in
`i32` range by `Layout.valid` and the overflow hypotheses). -/
structure Layout where
  size : Int
  alignment : Int
  deriving Repr, DecidableEq

/-- The assertions of `Layout::new` — `size >= 0`, `alignment >= 1`,
`alignment.count_ones() == 1`, `size % alignment == 0` — plus `i32`
representability: `size < 2^31`, and a positive power-of-two `i32`
alignment is `2^k` with `k ≤ 30`.  (With `size ≥ 0` and `alignment ≥ 1`
Rust's truncating `%` agrees with the Euclidean `%` used here.) -/
def Layout.valid (l : Layout) : Prop :=
  0 ≤ l.size ∧ l.size < 2147483648 ∧ 1 ≤ l.alignment ∧
  (∃ k : Nat, k ≤ 30 ∧ l.alignment = 2 ^ k) ∧ l.size % l.alignment = 0

instance (l : Layout) : Decidable l.valid :=
  decidable_of_iff
    (0 ≤ l.size ∧ l.size < 2147483648 ∧ 1 ≤ l.alignment ∧
      (∃ k ∈ List.range 31, l.alignment = 2 ^ k) ∧ l.size % l.alignment = 0)
    (by
      constructor
      · rintro ⟨h1, h2, h3, ⟨k, hk, hk2⟩, h5⟩
        exact ⟨h1, h2, h3, ⟨k, Nat.lt_succ_iff.1 (List.mem_range.1 hk), hk2⟩, h5⟩
      · rintro ⟨h1, h2, h3, ⟨k, hk, hk2⟩, h5⟩
        exact ⟨h1, h2, h3, ⟨k, List.mem_range.2 (Nat.lt_succ_of_le hk), hk2⟩, h5⟩)

/-- `next_multiple(x, div)` from `src/back/layout.rs`:
`(x + div - 1) / div * div` in `i32` arithmetic — Rust's truncating `i32`
division (`Int.tdiv`), with each addition, subtraction and multiplication
wrapped.  The source's `assert!(div > 0)` holds at every call reasoned
about below (`from_layouts` passes field alignments and an accumulator
that starts at 1 and only grows by `max`), so the division-by-zero arm of
the total `Int.tdiv` is never reached there. -/
def nextMultiple (x div : Int) : Int :=
  wrap32 ((wrap32 (wrap32 (x + div) - 1)).tdiv div * div)

/-- `TupleLayout { layout, offsets }` from `src/back/layout.rs`. -/
structure TupleLayout where
  layout : Layout
  offsets : List Int
  deriving Repr, DecidableEq

/-- The loop body of `TupleLayout::from_layouts`: threads `next_offset` and
`alignment` through the field list, collecting offsets; the
`next_offset += field.size` step is an `i32` addition and wraps. -/
def fromLayoutsGo : List Layout → Int → Int → (List Int × Int × Int)
  | [], nextOffset, alignment => ([], nextOffset, alignment)
  | f :: fs, nextOffset, alignment =>
      let off := nextMultiple nextOffset f.alignment
      let rest := fromLayoutsGo fs (wrap32 (off + f.size))
        (max alignment f.alignment)
      (off :: rest.1, rest.2)

/-- `TupleLayout::from_layouts` from `src/back/layout.rs`: left-to-right
packing with per-field alignment, starting at offset 0 and alignment 1,
final size rounded up to the accumulated alignment.  The source ends with
`Layout::new(size, alignment)`, whose asserts re-check the invariants:
`C4_tuple_layout_invariants` proves them under its no-overflow hypothesis
(`0 ≤ size` and `alignment ∣ size` among its conclusions), and in the C4
counterexample they happen to pass despite the wrap-around. -/
def TupleLayout.fromLayouts (fields : List Layout) : TupleLayout :=
  let r := fromLayoutsGo fields 0 1
  { layout := { size := nextMultiple r.2.1 r.2.2, alignment := r.2.2 },
    offsets := r.1 }

/-- Specification view: `next_multiple` over unbounded naturals. -/
def nextMultipleNat (x d : Nat) : Nat :=
  (x + d - 1) / d * d

/-- Specification view: the `from_layouts` loop over unbounded naturals
(sizes and alignments read through `Int.toNat`).  Where its run stays
below `2^31` it coincides step for step with the `i32` loop
(`fromLayoutsGo_coincide`); its final accumulator pair is the overflow
bound used by the amended C4. -/
def fromLayoutsGoNat : List Layout → Nat → Nat → (List Nat × Nat × Nat)
  | [], nextOffset, alignment => ([], nextOffset, alignment)
  | f :: fs, nextOffset, alignment =>
      let off := nextMultipleNat nextOffset f.alignment.toNat
      let rest := fromLayoutsGoNat fs (off + f.size.toNat)
        (max alignment f.alignment.toNat)
      (off :: rest.1, rest.2)

/-- Modelled from the spec: `Position = (file_id, line ≥ 1, col ≥ 1)`
(§3); `src/front/pos.rs` is not part of the given sources, but
`src/front/parser.rs` constructs `Pos { file, line, col }` directly. -/
structure Pos where
  file : Nat
  line : Nat
  col : Nat
  deriving Repr, DecidableEq

/-- Modelled from the spec: `Span = (start, end)` with `end ≥ start` (§3). -/
structure Span where
  start : Pos
  «end» : Pos
  deriving Repr, DecidableEq

/-- `Span::new`. -/
def Span.new (start e : Pos) : Span := ⟨start, e⟩

/-- `Span::empty_at`. -/
def Span.emptyAt (p : Pos) : Span := ⟨p, p⟩

namespace ast

/-! Modelled from the spec: the AST node set of §3 (`src/front/ast.rs` is
not among the given sources); every field below is pinned by the
construction sites in `src/front/parser.rs` and the uses in
`src/front/type_func.rs` and `src/front/lower.rs`. -/

structure Identifier where
  span : Span
  string : String
  deriving Repr, DecidableEq

inductive MaybeIdentifier where
  | Identifier (id : ast.Identifier)
  | Placeholder (span : Span)
  deriving Repr, DecidableEq

structure Path where
  span : Span
  parents : List Identifier
  id : Identifier
  deriving Repr, DecidableEq

mutual

/-- Source-level type AST; the source names it `ast::Type`, which Lean
reserves, so it is `ast.Ty` here. -/
inductive Ty where
  | mk (span : Span) (kind : TyKind)

inductive TyKind where
  | Wildcard
  | Void
  | Bool
  | Byte
  | Int
  | Ref (inner : Ty)
  | Path (path : ast.Path)
  | Func (params : List Ty) (ret : Ty)
  | Tuple (fields : List Ty)
  | Array (inner : Ty) (length : Nat)

end

def Ty.span : Ty → Span
  | .mk s _ => s

def Ty.kind : Ty → TyKind
  | .mk _ k => k

inductive UnaryOp where
  | Ref
  | Deref
  | Neg
  deriving Repr, DecidableEq

inductive BinaryOp where
  | Add | Sub | Mul | Div | Mod
  | Eq | Neq | Gte | Gt | Lte | Lt
  deriving Repr, DecidableEq

mutual

inductive Expression where
  | mk (span : Span) (kind : ExpressionKind)

inductive ExpressionKind where
  | Null
  | BoolLit (value : Bool)
  | IntLit (value : String)
  | StringLit (value : String)
  | Path (path : ast.Path)
  | Ternary (condition thenValue elseValue : Expression)
  | Binary (kind : BinaryOp) (left right : Expression)
  | Unary (kind : UnaryOp) (inner : Expression)
  | Call (target : Expression) (args : List Expression)
  | DotIndex (target : Expression) (index : DotIndexIndex)
  | ArrayIndex (target : Expression) (index : Expression)
  | Cast (value : Expression) (ty : Ty)
  | Return (value : Option Expression)
  | Continue
  | Break

/-- Modelled from the spec: the width of the tuple dot-index field is not
visible in the given sources (`ast.rs` is missing; the parser fills it via
an inferred `parse().unwrap()`); it is taken as `u32`, the width §3 uses
for the only other such AST integer (array length). -/
inductive DotIndexIndex where
  | Tuple (span : Span) (index : Nat)
  | Struct (id : Identifier)

end

def Expression.span : Expression → Span
  | .mk s _ => s

def Expression.kind : Expression → ExpressionKind
  | .mk _ k => k

structure Declaration where
  span : Span
  mutable : Bool
  ty : Option Ty
  id : MaybeIdentifier
  init : Option Expression

structure Assignment where
  span : Span
  left : Expression
  right : Expression

mutual

inductive Statement where
  | mk (span : Span) (kind : StatementKind)

inductive StatementKind where
  | Declaration (decl : ast.Declaration)
  | Assignment (assign : ast.Assignment)
  | If (s : IfStatement)
  | While (s : WhileStatement)
  | For (s : ForStatement)
  | Block (block : ast.Block)
  | Expression (expr : Expression)

inductive IfStatement where
  | mk (span : Span) (cond : Expression) (thenBlock : ast.Block)
       (elseBlock : Option ast.Block)

inductive WhileStatement where
  | mk (span : Span) (cond : Expression) (body : ast.Block)

inductive ForStatement where
  | mk (span : Span) (index : MaybeIdentifier) (indexTy : Option Ty)
       (start : Expression) (stop : Expression) (body : ast.Block)

inductive Block where
  | mk (span : Span) (statements : List Statement)

end

structure Parameter where
  span : Span
  id : MaybeIdentifier
  ty : Ty

/-- `ast::Function`. -/
structure Function where
  span : Span
  ext : Bool
  id : Identifier
  retTy : Option Ty
  params : List Parameter
  body : Option Block

structure StructField where
  span : Span
  id : Identifier
  ty : Ty

structure Struct where
  span : Span
  id : Identifier
  fields : List StructField

structure Const where
  span : Span
  id : Identifier
  ty : Ty
  init : Expression

structure UseDecl where
  span : Span
  path : ast.Path

inductive Item where
  | Struct (s : ast.Struct)
  | Function (f : ast.Function)
  | Const (c : ast.Const)
  | UseDecl (u : ast.UseDecl)

structure ModuleContent where
  items : List Item

end ast

namespace cst

/-- Modelled from the spec: the resolved source-level types of §3
(`src/front/cst.rs` is not among the given sources).  The source names it
`cst::Type`; structs are keyed by declaration in the source, which only the
solver's struct-index constraint consumes, so here a struct carries just its
field types (like the IR mapping in `src/front/lower.rs` uses them). -/
inductive Ty where
  | Placeholder (id : Nat)
  | Wildcard
  | Void
  | Bool
  | Byte
  | Int
  | Pointer (inner : Ty)
  | Tuple (fields : List Ty)
  | Func (params : List Ty) (ret : Ty)
  | Struct (fields : List Ty)
  | Array (inner : Ty) (length : Nat)

mutual

/-- Modelled from the spec: the type formatter used in error messages
(source `TypeStore::format_type`), following the surface syntax of §6. -/
def Ty.format : Ty → String
  | .Placeholder n => "_" ++ toString n
  | .Wildcard => "_"
  | .Void => "void"
  | .Bool => "bool"
  | .Byte => "byte"
  | .Int => "int"
  | .Pointer inner => "&" ++ inner.format
  | .Tuple fields => "(" ++ String.intercalate ", " (Ty.formatList fields) ++ ")"
  | .Func params ret =>
      "(" ++ String.intercalate ", " (Ty.formatList params) ++ ") -> " ++ ret.format
  | .Struct fields => "(" ++ String.intercalate ", " (Ty.formatList fields) ++ ")"
  | .Array inner length => "[" ++ inner.format ++ "; " ++ toString length ++ "]"

def Ty.formatList : List Ty → List String
  | [] => []
  | t :: ts => t.format :: Ty.formatList ts

end

end cst

/-- Modelled from the spec: the resolution/typing/lowering error taxonomy of
§7 (`src/front/error.rs` is not among the given sources); the fields follow
the construction sites in `src/front/scope.rs`, `src/front/type_func.rs`
and `src/front/lower.rs`. -/
inductive Error where
  | IdentifierDeclaredTwice (id : ast.Identifier)
  | UndeclaredIdentifier (id : ast.Identifier)
  | ItemKindMismatch (path : ast.Path)
  | MissingFunctionBody
  | MainFunctionMustHaveBody
  | TypeMismatch (expression : ast.Expression) (expected actual : String)
  | ExpectIntegerType (expression : ast.Expression) (actual : String)
  | ExpectPointerType (expression : ast.Expression) (actual : String)
  | InvalidLiteral (span : Span) (lit : String) (ty : String)

/-! ## `src/front/scope.rs` -/

/-- `Scope<'p, V>` from `src/front/scope.rs`: a value map plus an optional
parent pointer.  The `IndexMap` is modelled as an association list in
insertion order (which is exactly what `IndexMap` preserves). -/
inductive Scope (V : Type) where
  | mk (values : List (String × V)) (parent : Option (Scope V))

namespace Scope

variable {V : Type}

def values : Scope V → List (String × V)
  | .mk v _ => v

def parent : Scope V → Option (Scope V)
  | .mk _ p => p

/-- `IndexMap::get`. -/
def mapGet (m : List (String × V)) (k : String) : Option V :=
  match m with
  | [] => none
  | (k', v') :: rest => if k' = k then some v' else mapGet rest k

/-- `IndexMap::insert`: replaces in place, keeps insertion order, and
returns the previous value if the key was present. -/
def mapInsert (m : List (String × V)) (k : String) (v : V) :
    Option V × List (String × V) :=
  match m with
  | [] => (none, [(k, v)])
  | (k', v') :: rest =>
      if k' = k then (some v', (k', v) :: rest)
      else
        let r := mapInsert rest k v
        (r.1, (k', v') :: r.2)

/-- `Scope::nest`. -/
def nest (s : Scope V) : Scope V := .mk [] (some s)

/-- `Scope::declare`.  The returned scope is the mutated `self`: the insert
happens before the duplicate check, as in the source. -/
def declare (s : Scope V) (id : ast.Identifier) (v : V) :
    Except Error Unit × Scope V :=
  match s with
  | .mk values parent =>
      let r := mapInsert values id.string v
      match r.1 with
      | some _ => (.error (.IdentifierDeclaredTwice id), .mk r.2 parent)
      | none => (.ok (), .mk r.2 parent)

/-- `Scope::maybe_declare`. -/
def maybeDeclare (s : Scope V) (id : ast.MaybeIdentifier) (v : V) :
    Except Error Unit × Scope V :=
  match id with
  | .Identifier id => s.declare id v
  | .Placeholder _ => (.ok (), s)

/-- `Scope::find`: this scope's map first, then the parent chain, then the
`root` scope (itself searched without a root), else `UndeclaredIdentifier`. -/
def find : Scope V → Option (Scope V) → ast.Identifier → Except Error V
  | .mk values parent, root, id =>
      match mapGet values id.string with
      | some s => .ok s
      | none =>
          match parent with
          | some p => find p root id
          | none =>
              match root with
              | some r => find r none id
              | none => .error (.UndeclaredIdentifier id)
termination_by s root _ => sizeOf s + (match root with | some r => 1 + sizeOf r | none => 0)
decreasing_by
  · simp
    omega
  · simp
    omega

/-- `Scope::find_immediate_str`. -/
def findImmediateStr (s : Scope V) (id : String) : Option V :=
  mapGet s.values id

/-- `Scope::size`. -/
def size (s : Scope V) : Nat :=
  s.values.length

/-- Specification view: the value maps of the scope chain, innermost
first. -/
def chain : Scope V → List (List (String × V))
  | .mk values none => [values]
  | .mk values (some p) => values :: chain p

/-- Specification view: first binding of `k` along a list of value maps. -/
def lookupChain (ms : List (List (String × V))) (k : String) : Option V :=
  match ms with
  | [] => none
  | m :: rest =>
      match mapGet m k with
      | some v => some v
      | none => lookupChain rest k

end Scope

/-- A concrete position and span for witnesses. -/
def posW : Pos := ⟨0, 1, 1⟩

def spanW : Span := ⟨posW, posW⟩

/-! ## `src/front/parser.rs` — tokenizer

Character classes: the source uses Rust's `char` classification.  For the
ASCII fragment the Lean `Char` predicates agree exactly
(`is_ascii_digit` = `Char.isDigit`); `is_alphabetic`/`is_alphanumeric`/
`trim_start` are Unicode-aware in Rust and are modelled by the Lean ASCII
predicates, which coincide on all inputs appearing below. -/

def rustIsAsciiDigit (c : Char) : Bool := c.isDigit

def rustIsAlphabetic (c : Char) : Bool := c.isAlpha

def rustIsAlphanumeric (c : Char) : Bool := c.isAlphanum

def rustIsWhitespace (c : Char) : Bool := c.isWhitespace

/-- `TokenType` from `src/front/parser.rs` (`declare_tokens!`). -/
inductive TokenType where
  | Id
  | IntLit
  | StringLit
  | Void
  | Bool
  | Byte
  | Int
  | True
  | False
  | Null
  | Extern
  | Use
  | Struct
  | Fun
  | Return
  | Let
  | Const
  | Mut
  | If
  | Else
  | While
  | For
  | In
  | As
  | Break
  | Continue
  | Underscore
  | Arrow
  | DoubleDot
  | NotEq
  | DoubleEq
  | GreaterEqual
  | Greater
  | LessEqual
  | Less
  | Plus
  | Minus
  | Slash
  | Percent
  | Dot
  | DoubleColon
  | Semi
  | Colon
  | QuestionMark
  | Comma
  | Eq
  | Ampersand
  | Star
  | OpenB
  | CloseB
  | OpenC
  | CloseC
  | OpenS
  | CloseS
  | Eof
  deriving Repr, DecidableEq

/-- `TRIVIAL_TOKEN_LIST`, in the exact source order (longer operators are
listed before their prefixes, e.g. `==` before `=`). -/
def trivialTokenList : List (String × TokenType) := [
  ("void", .Void),
  ("bool", .Bool),
  ("byte", .Byte),
  ("int", .Int),
  ("true", .True),
  ("false", .False),
  ("null", .Null),
  ("extern", .Extern),
  ("use", .Use),
  ("struct", .Struct),
  ("fun", .Fun),
  ("return", .Return),
  ("let", .Let),
  ("const", .Const),
  ("mut", .Mut),
  ("if", .If),
  ("else", .Else),
  ("while", .While),
  ("for", .For),
  ("in", .In),
  ("as", .As),
  ("break", .Break),
  ("continue", .Continue),
  ("_", .Underscore),
  ("->", .Arrow),
  ("..", .DoubleDot),
  ("!=", .NotEq),
  ("==", .DoubleEq),
  (">=", .GreaterEqual),
  (">", .Greater),
  ("<=", .LessEqual),
  ("<", .Less),
  ("+", .Plus),
  ("-", .Minus),
  ("/", .Slash),
  ("%", .Percent),
  (".", .Dot),
  ("::", .DoubleColon),
  (";", .Semi),
  (":", .Colon),
  ("?", .QuestionMark),
  (",", .Comma),
  ("=", .Eq),
  ("&", .Ampersand),
  ("*", .Star),
  ("(", .OpenB),
  (")", .CloseB),
  ("\x7b", .OpenC),
  ("\x7d", .CloseC),
  ("[", .OpenS),
  ("]", .CloseS)]

structure Token where
  ty : TokenType
  string : String
  span : Span
  deriving Repr, DecidableEq

/-- `Token::eof_token`. -/
def Token.eofToken (pos : Pos) : Token :=
  { ty := .Eof, string := "", span := Span.emptyAt pos }

/-- `ParseError` from `src/front/parser.rs`. -/
inductive ParseError where
  | Char (pos : Pos) (char : Char)
  | Token (pos : Pos) (ty : TokenType) (description : String)
          (allowed : List TokenType)
  | Eof (after : Pos) (expected : String)
  deriving Repr, DecidableEq

/-- `Tokenizer` state: the remaining input (`left`, modelled as a char
list; Rust byte indices coincide with char indices on ASCII input), the
current position and the two lookahead tokens. -/
structure Tokenizer where
  left : List Char
  pos : Pos
  curr : Token
  next : Token
  deriving Repr, DecidableEq

/-- The index of the last `'\n'` of a char list (`str::rfind('\n')`). -/
def rfindNewline (l : List Char) : Option Nat :=
  (l.reverse.findIdx? (fun c => c = '\n')).map (fun i => l.length - 1 - i)

def countNewlines (l : List Char) : Nat :=
  l.countP (fun c => c = '\n')

/-- `Tokenizer::skip_count`: splits off the first `count` chars and updates
the position; a newline resets the column. -/
def Tokenizer.skipCount (t : Tokenizer) (count : Nat) : String × Tokenizer :=
  let skipped := t.left.take count
  let pos :=
    match rfindNewline skipped with
    | some lastNewline =>
        { t.pos with col := count - lastNewline,
                     line := t.pos.line + countNewlines skipped }
    | none => { t.pos with col := t.pos.col + count }
  (⟨skipped⟩, { t with left := t.left.drop count, pos := pos })

/-- First index at which `pat` occurs as a contiguous sublist
(`str::find(&str)`). -/
def findSub (pat : List Char) : List Char → Option Nat
  | [] => if pat.isPrefixOf ([] : List Char) then some 0 else none
  | c :: rest =>
      if pat.isPrefixOf (c :: rest) then some 0
      else (findSub pat rest).map (· + 1)

/-- `Tokenizer::skip_past`. -/
def Tokenizer.skipPast (t : Tokenizer) (pattern : String) (allowEof : Bool) :
    RRes ParseError Tokenizer :=
  let startPos := t.pos
  match findSub pattern.toList t.left with
  | some i => .ok (t.skipCount (i + pattern.length)).2
  | none =>
      if !allowEof then .err (.Eof startPos pattern)
      else .ok (t.skipCount t.left.length).2

/-- The loop body of `Tokenizer::skip_whitespace_and_comments`, with fuel
bounding the number of iterations (each non-final iteration strictly
consumes input, so `left.length + 1` suffices). -/
def Tokenizer.skipWSGo : Nat → Tokenizer → RRes ParseError Tokenizer
  | 0, _ => .spin
  | fuel + 1, t => do
      let prevLeft := t.left
      let t1 := (t.skipCount
        (t.left.length - (t.left.dropWhile rustIsWhitespace).length)).2
      let t2 ← if ("//".toList).isPrefixOf t1.left then
          t1.skipPast "\n" true
        else pure t1
      let t3 ← if ("/*".toList).isPrefixOf t2.left then
          t2.skipPast "*/" false
        else pure t2
      if prevLeft = t3.left then pure t3 else Tokenizer.skipWSGo fuel t3

/-- `Tokenizer::skip_whitespace_and_comments`. -/
def Tokenizer.skipWhitespaceAndComments (t : Tokenizer) :
    RRes ParseError Tokenizer :=
  Tokenizer.skipWSGo (t.left.length + 1) t

/-- `Tokenizer::parse_next`. -/
def Tokenizer.parseNext (t : Tokenizer) : RRes ParseError (Token × Tokenizer) := do
  let t ← t.skipWhitespaceAndComments
  let startPos := t.pos
  match t.left.head? with
  | none => pure (Token.eofToken startPos, t)
  | some peek =>
      if rustIsAsciiDigit peek then
        -- number
        let e := (t.left.findIdx? (fun c => !rustIsAsciiDigit c)).getD t.left.length
        let r := t.skipCount e
        pure ({ ty := .IntLit, string := r.1,
                span := Span.new startPos r.2.pos }, r.2)
      else if rustIsAlphabetic peek || peek = '_' then
        -- identifier (or keyword from the trivial table)
        let e := (t.left.findIdx?
          (fun c => !(rustIsAlphanumeric c || c = '_' || c = '@'))).getD t.left.length
        let r := t.skipCount e
        let ty := ((trivialTokenList.find? (fun p => p.1 = r.1)).map Prod.snd).getD .Id
        pure ({ ty := ty, string := r.1,
                span := Span.new startPos r.2.pos }, r.2)
      else if peek = '"' then
        -- string literal: contents stored raw, quotes excluded
        match (t.left.drop 1).findIdx? (fun c => c = '"') with
        | none => .err (.Eof t.pos "\"")
        | some i =>
            let e := 1 + i
            let r := t.skipCount (e + 1)
            let content : String := ⟨(r.1.toList.drop 1).take (e - 1)⟩
            pure ({ ty := .StringLit, string := content,
                    span := Span.new startPos r.2.pos }, r.2)
      else
        -- trivial token
        match trivialTokenList.find? (fun p => p.1.toList.isPrefixOf t.left) with
        | some p =>
            let r := t.skipCount p.1.length
            pure ({ ty := p.2, string := p.1,
                    span := Span.new startPos r.2.pos }, r.2)
        | none => .err (.Char t.pos peek)

/-- `Tokenizer::advance`: returns the old `curr`, shifts `next` into
`curr` and stores the freshly parsed token as `next`. -/
def Tokenizer.advance (t : Tokenizer) : RRes ParseError (Token × Tokenizer) := do
  let r ← t.parseNext
  pure (t.curr, { r.2 with curr := t.next, next := r.1 })

/-- `Tokenizer::new`. -/
def Tokenizer.new (file : Nat) (left : String) : RRes ParseError Tokenizer := do
  let pos : Pos := ⟨file, 1, 1⟩
  let t : Tokenizer :=
    { left := left.toList, pos := pos,
      curr := Token.eofToken pos, next := Token.eofToken pos }
  let r1 ← t.advance
  let r2 ← r1.2.advance
  pure r2.2

/-- The token stream: repeated `parse_next` up to and including the first
`Eof` token.  Every token that is not `Eof` consumes at least one char, so
`left.length + 1` calls suffice. -/
def tokensGo : Nat → Tokenizer → RRes ParseError (List Token)
  | 0, _ => .spin
  | fuel + 1, t =>
      match t.parseNext with
      | .ok (tok, t') =>
          if tok.ty = .Eof then .ok [tok]
          else
            match tokensGo fuel t' with
            | .ok rest => .ok (tok :: rest)
            | .err e => .err e
            | .panic => .panic
            | .spin => .spin
      | .err e => .err e
      | .panic => .panic
      | .spin => .spin

/-- All tokens the lexer produces from a source string. -/
def tokenize (file : Nat) (src : String) : RRes ParseError (List Token) :=
  tokensGo (src.length + 1)
    { left := src.toList, pos := ⟨file, 1, 1⟩,
      curr := Token.eofToken ⟨file, 1, 1⟩, next := Token.eofToken ⟨file, 1, 1⟩ }

/-- Span/lexeme relation of a produced token: a non-string-literal token
spans exactly its lexeme (same line, column distance = lexeme length),
while a string-literal token (with no newline in its content) spans its
lexeme plus the two delimiting quotes. -/
def tokenSpanProp (tok : Token) : Prop :=
  (tok.ty ≠ .StringLit →
    tok.span.«end».col = tok.span.start.col + tok.string.length ∧
    tok.span.«end».line = tok.span.start.line)
  ∧ (tok.ty = .StringLit →
    (∀ c ∈ tok.string.toList, c ≠ '\n') →
    tok.span.«end».col = tok.span.start.col + tok.string.length + 2 ∧
    tok.span.«end».line = tok.span.start.line)

/-- The token list the lexer produces from the one-identifier source `x`,
used as a witness below. -/
def xTokens : List Token :=
  [{ ty := .Id, string := "x", span := ⟨⟨0, 1, 1⟩, ⟨0, 1, 2⟩⟩ },
   { ty := .Eof, string := "", span := ⟨⟨0, 1, 2⟩, ⟨0, 1, 2⟩⟩ }]

/-! ## `src/front/parser.rs` — parser

Every grammar function takes an explicit fuel argument bounding its
recursion depth and loop iteration count; exhausting it yields `spin`.
The concrete theorems below run with ample fuel; `spin` never occurs
there. -/

/-- `Parser` state. -/
structure Parser where
  tokenizer : Tokenizer
  lastPoppedEnd : Pos
  deriving Repr, DecidableEq

/-- `Rust u32::from_str`: an optional `+` sign, one or more ASCII digits,
value within the `u32` range. -/
def parseDigits (l : List Char) : Option Nat :=
  if l.isEmpty then none
  else if l.all Char.isDigit then
    some (l.foldl (fun acc c => acc * 10 + (c.toNat - '0'.toNat)) 0)
  else none

def rustParseU32 (s : String) : Option Nat :=
  let l := match s.toList with
    | '+' :: rest => rest
    | l => l
  match parseDigits l with
  | some v => if v < 2 ^ 32 then some v else none
  | none => none

/-- Rust `i32::from_str`: an optional sign, one or more ASCII digits,
value within the `i32` range. -/
def rustParseI32 (s : String) : Option Int :=
  match s.toList with
  | '+' :: rest =>
      (parseDigits rest).bind
        (fun v => if (v : Int) ≤ 2 ^ 31 - 1 then some (v : Int) else none)
  | '-' :: rest =>
      (parseDigits rest).bind
        (fun v => if (v : Int) ≤ 2 ^ 31 then some (-(v : Int)) else none)
  | l =>
      (parseDigits l).bind
        (fun v => if (v : Int) ≤ 2 ^ 31 - 1 then some (v : Int) else none)

/-- `EXPR_START_TOKENS`. -/
def exprStartTokens : List TokenType :=
  [.Return, .Ampersand, .Star, .Minus, .IntLit, .True, .False, .Id, .OpenB]

/-- `TYPE_START_TOKENS`. -/
def typeStartTokens : List TokenType :=
  [.Underscore, .Void, .Bool, .Byte, .Int, .Ampersand, .Id, .OpenB, .OpenS]

structure BinOpInfo where
  level : Nat
  token : TokenType
  bindLeft : Bool
  op : ast.BinaryOp

/-- `BINARY_OPERATOR_INFO`, in source order. -/
def binaryOperatorInfo : List BinOpInfo := [
  ⟨3, .DoubleEq, true, .Eq⟩,
  ⟨3, .NotEq, true, .Neq⟩,
  ⟨3, .GreaterEqual, true, .Gte⟩,
  ⟨3, .Greater, true, .Gt⟩,
  ⟨3, .LessEqual, true, .Lte⟩,
  ⟨3, .Less, true, .Lt⟩,
  ⟨5, .Plus, true, .Add⟩,
  ⟨5, .Minus, true, .Sub⟩,
  ⟨6, .Slash, true, .Div⟩,
  ⟨6, .Star, true, .Mul⟩,
  ⟨6, .Percent, true, .Mod⟩]

structure PreOpInfo where
  level : Nat
  token : TokenType
  op : ast.UnaryOp

/-- `PREFIX_OPERATOR_INFO`, in source order: `&`, `*` and unary `-`, all at
level 2. -/
def preOperatorInfo : List PreOpInfo := [
  ⟨2, .Ampersand, .Ref⟩,
  ⟨2, .Star, .Deref⟩,
  ⟨2, .Minus, .Neg⟩]

/-- `POSTFIX_DEFAULT_LEVEL`. -/
def postFixDefaultLevel : Nat := 3

/-- `POSTFIX_CAST_LEVEL`. -/
def postFixCastLevel : Nat := 1

/-- `PrefixState`: the data required to construct one collected
prefix-operator application. -/
structure PreFixState where
  level : Nat
  start : Pos
  op : ast.UnaryOp

/-- `PrefixState::apply`. -/
def PreFixState.apply (s : PreFixState) (inner : ast.Expression) :
    ast.Expression :=
  .mk (Span.new s.start inner.span.«end») (.Unary s.op inner)

inductive PostFixStateKind where
  | Call (args : List ast.Expression)
  | ArrayIndex (index : ast.Expression)
  | DotIndex (index : ast.DotIndexIndex)
  | Cast (ty : ast.Ty)

/-- `PostFixState`. -/
structure PostFixState where
  level : Nat
  «end» : Pos
  kind : PostFixStateKind

/-- `PostFixState::apply`. -/
def PostFixState.apply (s : PostFixState) (inner : ast.Expression) :
    ast.Expression :=
  let span := Span.new inner.span.start s.«end»
  match s.kind with
  | .Call args => .mk span (.Call inner args)
  | .ArrayIndex index => .mk span (.ArrayIndex inner index)
  | .DotIndex index => .mk span (.DotIndex inner index)
  | .Cast ty => .mk span (.Cast inner ty)

/-- The merge loop of `Parser::unary`: applies the collected operations
last-to-first, choosing between the two stacks by comparing top-of-stack
levels.  Both stacks keep their top at the head: the source pops prefix
operations from the vector's end (so the head here is the *outermost*
collected one reversed into place by the caller) and pops postfix
operations from the end of the reversed vector, i.e. from the head of the
source-order list.  The source's `assert_ne!` of equal levels is the
`panic` arm. -/
def applyUnaryOpsGo :
    Nat → List PreFixState → List PostFixState → ast.Expression →
      RRes ParseError ast.Expression
  | 0, _, _, _ => .spin
  | _ + 1, [], [], curr => .ok curr
  | fuel + 1, p :: pre, [], curr => applyUnaryOpsGo fuel pre [] (p.apply curr)
  | fuel + 1, [], q :: post, curr => applyUnaryOpsGo fuel [] post (q.apply curr)
  | fuel + 1, p :: pre, q :: post, curr =>
      if p.level = q.level then .panic
      else if q.level < p.level then
        applyUnaryOpsGo fuel pre (q :: post) (p.apply curr)
      else applyUnaryOpsGo fuel (p :: pre) post (q.apply curr)

def applyUnaryOps (pre : List PreFixState) (post : List PostFixState)
    (curr : ast.Expression) : RRes ParseError ast.Expression :=
  applyUnaryOpsGo (pre.length + post.length + 1) pre post curr

namespace Parser

/-- `Parser::pop`. -/
def pop (p : Parser) : RRes ParseError (Token × Parser) := do
  let r ← p.tokenizer.advance
  pure (r.1, { tokenizer := r.2, lastPoppedEnd := r.1.span.«end» })

/-- `Parser::peek`. -/
def peek (p : Parser) : Token := p.tokenizer.curr

/-- `Parser::lookahead`. -/
def lookahead (p : Parser) : Token := p.tokenizer.next

/-- `Parser::at`. -/
def at_ (p : Parser) (ty : TokenType) : Bool := p.peek.ty = ty

/-- `Parser::accept`. -/
def accept (p : Parser) (ty : TokenType) :
    RRes ParseError (Option Token × Parser) :=
  if p.at_ ty then do
    let r ← p.pop
    pure (some r.1, r.2)
  else pure (none, p)

/-- `Parser::unexpected_token`. -/
def unexpectedToken (token : Token) (allowed : List TokenType)
    (description : String) : ParseError :=
  .Token token.span.start token.ty description allowed

/-- `Parser::expect`. -/
def expect (p : Parser) (ty : TokenType) (description : String) :
    RRes ParseError (Token × Parser) :=
  if p.at_ ty then p.pop
  else .err (unexpectedToken p.peek [ty] description)

/-- `Parser::expect_all`. -/
def expectAll (p : Parser) (tys : List TokenType) (description : String) :
    RRes ParseError (Unit × Parser) :=
  match tys with
  | [] => .ok ((), p)
  | ty :: rest => do
      let r ← p.expect ty description
      expectAll r.2 rest description

/-- `Parser::expect_any`. -/
def expectAny (p : Parser) (tys : List TokenType) (description : String) :
    RRes ParseError (Token × Parser) :=
  if tys.contains p.peek.ty then p.pop
  else .err (unexpectedToken p.peek tys description)

/-- The loop of `Parser::list`. -/
def plistGo {α : Type} (endTy : TokenType) (sep : Option TokenType)
    (item : Parser → RRes ParseError (α × Parser)) :
    Nat → Parser → List α → Pos → Pos →
      RRes ParseError ((Span × List α) × Parser)
  | 0, _, _, _, _ => .spin
  | fuel + 1, p, acc, startPos, endPos => do
      let r ← p.accept endTy
      match r.1 with
      | some _ => pure ((Span.new startPos endPos, acc.reverse), r.2)
      | none => do
          let ri ← item r.2
          let endPos := ri.2.lastPoppedEnd
          let acc := ri.1 :: acc
          let r2 ← ri.2.accept endTy
          match r2.1 with
          | some _ => pure ((Span.new startPos endPos, acc.reverse), r2.2)
          | none =>
              match sep with
              | some s => do
                  let rs ← r2.2.expect s "separator"
                  plistGo endTy sep item fuel rs.2 acc startPos endPos
              | none => plistGo endTy sep item fuel r2.2 acc startPos endPos

/-- `Parser::list`: a possibly-empty, possibly-trailing-separator list. -/
def plist {α : Type} (endTy : TokenType) (sep : Option TokenType)
    (item : Parser → RRes ParseError (α × Parser)) (fuel : Nat) (p : Parser) :
    RRes ParseError ((Span × List α) × Parser) :=
  plistGo endTy sep item fuel p [] p.peek.span.start p.peek.span.start

/-- `Parser::identifier`. -/
def identifier (p : Parser) (description : String) :
    RRes ParseError (ast.Identifier × Parser) := do
  let r ← p.expect .Id description
  pure (⟨r.1.span, r.1.string⟩, r.2)

/-- `Parser::maybe_identifier`. -/
def maybeIdentifier (p : Parser) (description : String) :
    RRes ParseError (ast.MaybeIdentifier × Parser) :=
  if p.at_ .Underscore then do
    let r ← p.pop
    pure (.Placeholder r.1.span, r.2)
  else do
    let r ← p.identifier description
    pure (.Identifier r.1, r.2)

/-- The loop of `Parser::path`. -/
def pathGo : Nat → Parser → List ast.Identifier → ast.Identifier →
    RRes ParseError (ast.Path × Parser)
  | 0, _, _, _ => .spin
  | fuel + 1, p, parents, id => do
      let r ← p.accept .DoubleColon
      match r.1 with
      | some _ => do
          let ri ← r.2.identifier "path element"
          pathGo fuel ri.2 (parents ++ [id]) ri.1
      | none =>
          pure (⟨Span.new id.span.start r.2.lastPoppedEnd, parents, id⟩, r.2)

/-- `Parser::path`. -/
def path (fuel : Nat) (p : Parser) : RRes ParseError (ast.Path × Parser) := do
  let r ← p.identifier "identifier"
  pathGo fuel r.2 [] r.1

/-- `Parser::collect_prefix_ops`. -/
def collectPreOps : Nat → Parser → RRes ParseError (List PreFixState × Parser)
  | 0, _ => .spin
  | fuel + 1, p =>
      match preOperatorInfo.find? (fun i => i.token = p.peek.ty) with
      | some info => do
          let r ← p.pop
          let rest ← collectPreOps fuel r.2
          pure (⟨info.level, r.1.span.start, info.op⟩ :: rest.1, rest.2)
      | none => pure ([], p)

/-- `Parser::type_decl`. -/
def typeDecl : Nat → Parser → RRes ParseError (ast.Ty × Parser)
  | 0, _ => .spin
  | fuel + 1, p =>
      let startPos := p.peek.span.start
      match p.peek.ty with
      | .Underscore => do
          let r ← p.pop
          pure (.mk r.1.span .Wildcard, r.2)
      | .Void => do
          let r ← p.pop
          pure (.mk r.1.span .Void, r.2)
      | .Bool => do
          let r ← p.pop
          pure (.mk r.1.span .Bool, r.2)
      | .Byte => do
          let r ← p.pop
          pure (.mk r.1.span .Byte, r.2)
      | .Int => do
          let r ← p.pop
          pure (.mk r.1.span .Int, r.2)
      | .Ampersand => do
          let r ← p.pop
          let ri ← typeDecl fuel r.2
          pure (.mk (Span.new startPos ri.1.span.«end») (.Ref ri.1), ri.2)
      | .Id => do
          let r ← path fuel p
          pure (.mk r.1.span (.Path r.1), r.2)
      | .OpenB => do
          -- func or tuple
          let r ← p.pop
          let rl ← plist .CloseB (some .Comma) (fun q => typeDecl fuel q) fuel r.2
          let ra ← rl.2.accept .Arrow
          match ra.1 with
          | some _ => do
              let rr ← typeDecl fuel ra.2
              pure (.mk (Span.new startPos rr.2.lastPoppedEnd)
                (.Func rl.1.2 rr.1), rr.2)
          | none =>
              pure (.mk (Span.new startPos ra.2.lastPoppedEnd)
                (.Tuple rl.1.2), ra.2)
      | .OpenS => do
          -- array; the length literal is parsed with an unchecked `unwrap`
          let r ← p.pop
          let ri ← typeDecl fuel r.2
          let rs ← ri.2.expect .Semi "array type delimiter"
          let rlen ← rs.2.expect .IntLit "array length"
          match rustParseU32 rlen.1.string with
          | none => .panic
          | some length => do
              let rc ← rlen.2.expect .CloseS "end of array type"
              pure (.mk (Span.new startPos rc.2.lastPoppedEnd)
                (.Array ri.1 length), rc.2)
      | _ => .err (unexpectedToken p.peek typeStartTokens "type declaration")

/-- `Parser::maybe_type_decl`. -/
def maybeTypeDecl (fuel : Nat) (p : Parser) :
    RRes ParseError (Option ast.Ty × Parser) := do
  let r ← p.accept .Colon
  match r.1 with
  | some _ => do
      let rt ← typeDecl fuel r.2
      pure (some rt.1, rt.2)
  | none => pure (none, r.2)

/-! The expression grammar of the source is mutually recursive
(`expression` ↔ `precedence_climb_binop` ↔ `unary` ↔ `collect_postfix_ops`
↔ `atomic`), all bounded here by the shared fuel.  The mutual recursion is
expressed as a single structural recursion on the fuel producing a record
of the six functions (so that concrete runs reduce efficiently inside the
Lean kernel); the source-named entry points below project out of it and
satisfy exactly the recursive equations of the direct mutual definition. -/
structure ExprFns where
  expression : Parser → RRes ParseError (ast.Expression × Parser)
  precedenceClimbBinop : Nat → Parser → RRes ParseError (ast.Expression × Parser)
  pcbLoop : Nat → ast.Expression → Parser → RRes ParseError (ast.Expression × Parser)
  unary : Parser → RRes ParseError (ast.Expression × Parser)
  collectPostOps : Parser → RRes ParseError (List PostFixState × Parser)
  atomic : Parser → RRes ParseError (ast.Expression × Parser)

def exprFns : Nat → ExprFns
  | 0 =>
      { expression := fun _ => .spin,
        precedenceClimbBinop := fun _ _ => .spin,
        pcbLoop := fun _ _ _ => .spin,
        unary := fun _ => .spin,
        collectPostOps := fun _ => .spin,
        atomic := fun _ => .spin }
  | fuel + 1 =>
      let F := exprFns fuel
      { -- `Parser::expression`: precedence climbing from level 0, then one
        -- optional right-associative ternary.
        expression := fun p => do
          let re ← F.precedenceClimbBinop 0 p
          let start := re.1.span.start
          let rq ← re.2.accept .QuestionMark
          match rq.1 with
          | some _ => do
              let rt ← F.expression rq.2
              let rc ← rt.2.expect .Colon "continue ternary expression"
              let rl ← F.expression rc.2
              pure (.mk (Span.new start rl.2.lastPoppedEnd)
                (.Ternary re.1 rt.1 rl.1), rl.2)
          | none => pure (re.1, rq.2),
        -- `Parser::precedence_climb_binop`.
        precedenceClimbBinop := fun lowerLevel p => do
          let rc ← F.unary p
          F.pcbLoop lowerLevel rc.1 rc.2,
        -- the loop of `Parser::precedence_climb_binop`.
        pcbLoop := fun lowerLevel curr p =>
          match binaryOperatorInfo.find? (fun i => i.token = p.peek.ty) with
          | some info =>
              if info.level < lowerLevel then pure (curr, p)
              else do
                let rp ← p.pop
                let nextLowerLevel := info.level + (if info.bindLeft then 1 else 0)
                let rr ← F.precedenceClimbBinop nextLowerLevel rp.2
                F.pcbLoop lowerLevel
                  (.mk (Span.new curr.span.start rr.1.span.«end»)
                    (.Binary info.op curr rr.1)) rr.2
          | none => pure (curr, p),
        -- `Parser::unary`: collect prefix operators, an atom and postfix
        -- operators, then merge them via `applyUnaryOps` (prefix stack
        -- reversed so its top sits at the head; the postfix stack in source
        -- order is already top-at-head after the source's `reverse()` +
        -- pop-from-end).
        unary := fun p => do
          let rpre ← Parser.collectPreOps fuel p
          let rc ← F.atomic rpre.2
          let rpost ← F.collectPostOps rc.2
          let e ← applyUnaryOps rpre.1.reverse rpost.1 rc.1
          pure (e, rpost.2),
        -- `Parser::collect_postfix_ops`.  The tuple dot-index literal and
        -- its `parse().unwrap()` are the `.panic` arm.
        collectPostOps := fun p =>
          match p.peek.ty with
          | .OpenB => do
              -- call
              let r ← p.pop
              let rl ← Parser.plist .CloseB (some .Comma)
                (fun q => F.expression q) fuel r.2
              let rest ← F.collectPostOps rl.2
              pure (⟨postFixDefaultLevel, rl.2.lastPoppedEnd,
                .Call rl.1.2⟩ :: rest.1, rest.2)
          | .OpenS => do
              -- array indexing
              let r ← p.pop
              let ri ← F.expression r.2
              let rc ← ri.2.expect .CloseS ""
              let rest ← F.collectPostOps rc.2
              pure (⟨postFixDefaultLevel, rc.2.lastPoppedEnd,
                .ArrayIndex ri.1⟩ :: rest.1, rest.2)
          | .Dot => do
              -- dot indexing
              let r ← p.pop
              let ridx ← r.2.expectAny [.IntLit, .Id] "dot index index"
              let index ← match ridx.1.ty with
                | .IntLit =>
                    match rustParseU32 ridx.1.string with
                    | some i => pure (ast.DotIndexIndex.Tuple ridx.1.span i)
                    | none => .panic
                | .Id => pure (ast.DotIndexIndex.Struct ⟨ridx.1.span, ridx.1.string⟩)
                | _ => .panic
              let rest ← F.collectPostOps ridx.2
              pure (⟨postFixDefaultLevel, ridx.2.lastPoppedEnd,
                .DotIndex index⟩ :: rest.1, rest.2)
          | .As => do
              -- casting
              let r ← p.pop
              let rt ← Parser.typeDecl fuel r.2
              let rest ← F.collectPostOps rt.2
              pure (⟨postFixCastLevel, rt.2.lastPoppedEnd,
                .Cast rt.1⟩ :: rest.1, rest.2)
          | _ => pure ([], p),
        -- `Parser::atomic`.
        atomic := fun p =>
          let startPos := p.peek.span.start
          match p.peek.ty with
          | .IntLit => do
              let r ← p.pop
              pure (.mk r.1.span (.IntLit r.1.string), r.2)
          | .True => do
              let r ← p.pop
              let v ← if r.1.string = "true" then pure true
                else if r.1.string = "false" then pure false
                else (.panic : RRes ParseError _)
              pure (.mk r.1.span (.BoolLit v), r.2)
          | .False => do
              let r ← p.pop
              let v ← if r.1.string = "true" then pure true
                else if r.1.string = "false" then pure false
                else (.panic : RRes ParseError _)
              pure (.mk r.1.span (.BoolLit v), r.2)
          | .Null => do
              let r ← p.pop
              pure (.mk r.1.span .Null, r.2)
          | .StringLit => do
              let r ← p.pop
              pure (.mk r.1.span (.StringLit r.1.string), r.2)
          | .Id => do
              let r ← Parser.path fuel p
              pure (.mk (Span.new startPos r.2.lastPoppedEnd) (.Path r.1), r.2)
          | .OpenB => do
              let r ← p.pop
              let re ← F.expression r.2
              let rc ← re.2.expect .CloseB "closing parenthesis"
              pure (re.1, rc.2)
          | .Return => do
              let r ← p.pop
              if r.2.peek.ty = .Semi then
                pure (.mk (Span.new startPos r.2.lastPoppedEnd) (.Return none), r.2)
              else do
                let re ← F.expression r.2
                pure (.mk (Span.new startPos re.2.lastPoppedEnd)
                  (.Return (some re.1)), re.2)
          | .Continue => do
              let r ← p.pop
              pure (.mk r.1.span .Continue, r.2)
          | .Break => do
              let r ← p.pop
              pure (.mk r.1.span .Break, r.2)
          | _ => .err (Parser.unexpectedToken p.peek exprStartTokens "expression") }

/-- `Parser::expression`. -/
def expression (fuel : Nat) (p : Parser) :
    RRes ParseError (ast.Expression × Parser) :=
  (exprFns fuel).expression p

/-- `Parser::precedence_climb_binop`. -/
def precedenceClimbBinop (fuel lowerLevel : Nat) (p : Parser) :
    RRes ParseError (ast.Expression × Parser) :=
  (exprFns fuel).precedenceClimbBinop lowerLevel p

/-- `Parser::unary`. -/
def unary (fuel : Nat) (p : Parser) :
    RRes ParseError (ast.Expression × Parser) :=
  (exprFns fuel).unary p

/-- `Parser::collect_postfix_ops`. -/
def collectPostOps (fuel : Nat) (p : Parser) :
    RRes ParseError (List PostFixState × Parser) :=
  (exprFns fuel).collectPostOps p

/-- `Parser::atomic`. -/
def atomic (fuel : Nat) (p : Parser) :
    RRes ParseError (ast.Expression × Parser) :=
  (exprFns fuel).atomic p

/-! The item/statement grammar, mutually recursive in the source
(`module` → `item` → `function`/`struct`/`const`/`use`, `block` ↔
`statement`), expressed the same way as a fuel-indexed record. -/
structure ItemFns where
  module : Parser → RRes ParseError (ast.ModuleContent × Parser)
  item : Parser → RRes ParseError (ast.Item × Parser)
  const_ : Parser → RRes ParseError (ast.Const × Parser)
  useDecl : Parser → RRes ParseError (ast.UseDecl × Parser)
  struct_ : Parser → RRes ParseError (ast.Struct × Parser)
  structField : Parser → RRes ParseError (ast.StructField × Parser)
  function : Parser → RRes ParseError (ast.Function × Parser)
  parameter : Parser → RRes ParseError (ast.Parameter × Parser)
  block : Parser → RRes ParseError (ast.Block × Parser)
  statement : Parser → RRes ParseError (ast.Statement × Parser)
  variableDeclaration : TokenType → Parser → RRes ParseError (ast.Declaration × Parser)

def itemFns : Nat → ItemFns
  | 0 =>
      { module := fun _ => .spin,
        item := fun _ => .spin,
        const_ := fun _ => .spin,
        useDecl := fun _ => .spin,
        struct_ := fun _ => .spin,
        structField := fun _ => .spin,
        function := fun _ => .spin,
        parameter := fun _ => .spin,
        block := fun _ => .spin,
        statement := fun _ => .spin,
        variableDeclaration := fun _ _ => .spin }
  | fuel + 1 =>
      let G := itemFns fuel
      { -- `Parser::module`.
        module := fun p => do
          let r ← Parser.plist .Eof none (fun q => G.item q) fuel p
          pure (⟨r.1.2⟩, r.2),
        -- `Parser::item`.
        item := fun p =>
          match p.peek.ty with
          | .Struct => do
              let r ← G.struct_ p
              pure (.Struct r.1, r.2)
          | .Fun => do
              let r ← G.function p
              pure (.Function r.1, r.2)
          | .Extern => do
              let r ← G.function p
              pure (.Function r.1, r.2)
          | .Const => do
              let r ← G.const_ p
              pure (.Const r.1, r.2)
          | .Use => do
              let r ← G.useDecl p
              pure (.UseDecl r.1, r.2)
          | _ => .err (Parser.unexpectedToken p.peek
              [.Struct, .Fun, .Extern, .Const, .Use] "start of item"),
        -- `Parser::const_`.
        const_ := fun p => do
          let r ← p.expect .Const "start of const item"
          let startPos := r.1.span.start
          let rid ← r.2.identifier "const name"
          let rc ← rid.2.expect .Colon "const type"
          let rt ← Parser.typeDecl fuel rc.2
          let re ← rt.2.expect .Eq "initializer"
          let rinit ← Parser.expression fuel re.2
          let rs ← rinit.2.expect .Semi "end of item"
          pure (⟨Span.new startPos rs.2.lastPoppedEnd, rid.1, rt.1, rinit.1⟩,
            rs.2),
        -- `Parser::use_decl`.
        useDecl := fun p => do
          let r ← p.expect .Use "start of use decl"
          let startPos := r.1.span.start
          let rp ← Parser.path fuel r.2
          let rs ← rp.2.expect .Semi "end of item"
          pure (⟨Span.new startPos rp.1.span.«end», rp.1⟩, rs.2),
        -- `Parser::struct_`.
        struct_ := fun p => do
          let r ← p.expect .Struct "start of struct declaration"
          let start := r.1.span.start
          let rid ← r.2.identifier "struct name"
          let ro ← rid.2.expect .OpenC "start of struct fields"
          let rf ← Parser.plist .CloseC (some .Comma)
            (fun q => G.structField q) fuel ro.2
          pure (⟨Span.new start rf.2.lastPoppedEnd, rid.1, rf.1.2⟩, rf.2),
        -- `Parser::struct_field`.
        structField := fun p => do
          let rid ← p.identifier "field name"
          let rc ← rid.2.expect .Colon "field type"
          let rt ← Parser.typeDecl fuel rc.2
          pure (⟨Span.new rid.1.span.start rt.1.span.«end», rid.1, rt.1⟩, rt.2),
        -- `Parser::function`.
        function := fun p => do
          let startPos := p.peek.span.start
          let rext ← p.accept .Extern
          let ext := rext.1.isSome
          let rf ← rext.2.expect .Fun "function declaration"
          let rid ← rf.2.identifier "function name"
          let ro ← rid.2.expect .OpenB "start of parameters"
          let rp ← Parser.plist .CloseB (some .Comma)
            (fun q => G.parameter q) fuel ro.2
          let ra ← rp.2.accept .Arrow
          let rret ← match ra.1 with
            | some _ => do
                let rt ← Parser.typeDecl fuel ra.2
                pure (some rt.1, rt.2)
            | none => pure ((none : Option ast.Ty), ra.2)
          let rbody ← if rret.2.at_ .OpenC then do
              let rb ← G.block rret.2
              pure (some rb.1, rb.2)
            else do
              let rs ← rret.2.expect .Semi "end of function declaration"
              pure ((none : Option ast.Block), rs.2)
          pure (⟨Span.new startPos rbody.2.lastPoppedEnd, ext, rid.1, rret.1,
            rp.1.2, rbody.1⟩, rbody.2),
        -- `Parser::parameter`.
        parameter := fun p => do
          let start := p.peek.span.start
          let rid ← p.maybeIdentifier "parameter name"
          let rc ← rid.2.expect .Colon "parameter type"
          let rt ← Parser.typeDecl fuel rc.2
          pure (⟨Span.new start rt.1.span.«end», rid.1, rt.1⟩, rt.2),
        -- `Parser::block`.
        block := fun p => do
          let r ← p.expect .OpenC "start of block"
          let startPos := r.1.span.start
          let rl ← Parser.plist .CloseC none (fun q => G.statement q) fuel r.2
          pure (.mk (Span.new startPos rl.1.1.«end») rl.1.2, rl.2),
        -- `Parser::statement`.
        statement := fun p => do
          let startPos := p.peek.span.start
          let rk ← (match p.peek.ty with
            | .Let => do
                let rd ← G.variableDeclaration .Let p
                pure ((ast.StatementKind.Declaration rd.1, true), rd.2)
            | .If => do
                let r ← p.pop
                let rc ← Parser.expression fuel r.2
                let rt ← G.block rc.2
                let re ← rt.2.accept .Else
                let relse ← match re.1 with
                  | some _ => do
                      let rb ← G.block re.2
                      pure (some rb.1, rb.2)
                  | none => pure ((none : Option ast.Block), re.2)
                pure ((ast.StatementKind.If
                  (.mk (Span.new startPos relse.2.lastPoppedEnd) rc.1 rt.1
                    relse.1), false), relse.2)
            | .While => do
                let r ← p.pop
                let rc ← Parser.expression fuel r.2
                let rb ← G.block rc.2
                pure ((ast.StatementKind.While
                  (.mk (Span.new startPos rb.2.lastPoppedEnd) rc.1 rb.1),
                  false), rb.2)
            | .For => do
                let r ← p.pop
                let rid ← r.2.maybeIdentifier "index variable"
                let rty ← Parser.maybeTypeDecl fuel rid.2
                let rin ← rty.2.expect .In "in"
                let rstart ← Parser.expression fuel rin.2
                let rdd ← rstart.2.expect .DoubleDot "range separator"
                let rend ← Parser.expression fuel rdd.2
                let rb ← G.block rend.2
                pure ((ast.StatementKind.For
                  (.mk (Span.new startPos rb.2.lastPoppedEnd) rid.1 rty.1
                    rstart.1 rend.1 rb.1), false), rb.2)
            | .OpenC => do
                let rb ← G.block p
                pure ((ast.StatementKind.Block rb.1, false), rb.2)
            | _ => do
                let rl ← Parser.expression fuel p
                let re ← rl.2.accept .Eq
                match re.1 with
                | some _ => do
                    let rr ← Parser.expression fuel re.2
                    pure ((ast.StatementKind.Assignment
                      ⟨Span.new rl.1.span.start rr.1.span.«end», rl.1, rr.1⟩,
                      true), rr.2)
                | none =>
                    pure ((ast.StatementKind.Expression rl.1, true), re.2))
          let rdone ← if rk.1.2 then do
              let rs ← rk.2.expect .Semi "end of statement"
              pure ((), rs.2)
            else pure ((), rk.2)
          pure (.mk (Span.new startPos rdone.2.lastPoppedEnd) rk.1.1, rdone.2),
        -- `Parser::variable_declaration`.
        variableDeclaration := fun ty p => do
          let r ← p.expect ty "variable declaration"
          let startPos := r.1.span.start
          let rm ← r.2.accept .Mut
          let mutable := rm.1.isSome
          let rid ← rm.2.maybeIdentifier "variable name"
          let rty ← Parser.maybeTypeDecl fuel rid.2
          let re ← rty.2.accept .Eq
          let rinit ← match re.1 with
            | some _ => do
                let ri ← Parser.expression fuel re.2
                pure (some ri.1, ri.2)
            | none => pure ((none : Option ast.Expression), re.2)
          pure (⟨Span.new startPos rinit.2.lastPoppedEnd, mutable, rty.1,
            rid.1, rinit.1⟩, rinit.2) }

/-- `Parser::module`. -/
def module (fuel : Nat) (p : Parser) :
    RRes ParseError (ast.ModuleContent × Parser) :=
  (itemFns fuel).module p

/-- `Parser::item`. -/
def item (fuel : Nat) (p : Parser) : RRes ParseError (ast.Item × Parser) :=
  (itemFns fuel).item p

/-- `Parser::const_`. -/
def const_ (fuel : Nat) (p : Parser) : RRes ParseError (ast.Const × Parser) :=
  (itemFns fuel).const_ p

/-- `Parser::use_decl`. -/
def useDecl (fuel : Nat) (p : Parser) :
    RRes ParseError (ast.UseDecl × Parser) :=
  (itemFns fuel).useDecl p

/-- `Parser::struct_`. -/
def struct_ (fuel : Nat) (p : Parser) :
    RRes ParseError (ast.Struct × Parser) :=
  (itemFns fuel).struct_ p

/-- `Parser::function`. -/
def function (fuel : Nat) (p : Parser) :
    RRes ParseError (ast.Function × Parser) :=
  (itemFns fuel).function p

/-- `Parser::block`. -/
def block (fuel : Nat) (p : Parser) : RRes ParseError (ast.Block × Parser) :=
  (itemFns fuel).block p

/-- `Parser::statement`. -/
def statement (fuel : Nat) (p : Parser) :
    RRes ParseError (ast.Statement × Parser) :=
  (itemFns fuel).statement p

/-- `Parser::variable_declaration`. -/
def variableDeclaration (fuel : Nat) (ty : TokenType) (p : Parser) :
    RRes ParseError (ast.Declaration × Parser) :=
  (itemFns fuel).variableDeclaration ty p

end Parser

/-- `parse_module` from `src/front/parser.rs` (with explicit fuel). -/
def parseModule (file : Nat) (input : String) (fuel : Nat) :
    RRes ParseError ast.ModuleContent := do
  let t ← Tokenizer.new file input
  let p : Parser := { tokenizer := t, lastPoppedEnd := ⟨file, 1, 1⟩ }
  let r ← Parser.module fuel p
  pure r.1

/-- Expression-parsing entry point for concrete tests: tokenizes `input`
and runs `Parser::expression`. -/
def parseExpr (input : String) (fuel : Nat) : RRes ParseError ast.Expression := do
  let t ← Tokenizer.new 0 input
  let p : Parser := { tokenizer := t, lastPoppedEnd := ⟨0, 1, 1⟩ }
  let r ← Parser.expression fuel p
  pure r.1

/-- A span-free view of expressions, used to state parse-tree shapes. -/
inductive SExpr where
  | var (name : String)
  | intLit (value : String)
  | deref (inner : SExpr)
  | ref (inner : SExpr)
  | neg (inner : SExpr)
  | dotS (target : SExpr) (field : String)
  | dotT (target : SExpr) (index : Nat)
  | castTo (target : SExpr) (tyName : String)
  | other
  deriving Repr, DecidableEq

def tyName (t : ast.Ty) : String :=
  match t.kind with
  | .Path p => p.id.string
  | .Int => "int"
  | .Byte => "byte"
  | .Bool => "bool"
  | .Void => "void"
  | _ => ""

def eraseExpr : ast.Expression → SExpr
  | .mk _ (.Path p) => if p.parents.isEmpty then .var p.id.string else .other
  | .mk _ (.IntLit v) => .intLit v
  | .mk _ (.Unary .Deref inner) => .deref (eraseExpr inner)
  | .mk _ (.Unary .Ref inner) => .ref (eraseExpr inner)
  | .mk _ (.Unary .Neg inner) => .neg (eraseExpr inner)
  | .mk _ (.DotIndex t (.Struct id)) => .dotS (eraseExpr t) id.string
  | .mk _ (.DotIndex t (.Tuple _ i)) => .dotT (eraseExpr t) i
  | .mk _ (.Cast v ty) => .castTo (eraseExpr v) (tyName ty)
  | .mk _ _ => .other

/-- Parse an expression and erase spans. -/
def parseExprS (input : String) : RRes ParseError SExpr :=
  match parseExpr input 100 with
  | .ok e => .ok (eraseExpr e)
  | .err e => .err e
  | .panic => .panic
  | .spin => .spin

/-- Specification view: apply a list of collected prefix operations
head-first. -/
def applyAllPre (ops : List PreFixState) (e : ast.Expression) : ast.Expression :=
  ops.foldl (fun acc op => op.apply acc) e

/-- Specification view: apply a list of collected postfix operations
head-first. -/
def applyAllPost (ops : List PostFixState) (e : ast.Expression) : ast.Expression :=
  ops.foldl (fun acc op => op.apply acc) e

/-! ## `src/front/type_solver.rs` — the constraint problem (modelled) -/

/-- Modelled from the spec: a solver type variable is a dense index
(§4.F; `src/front/type_solver.rs` is not among the given sources). -/
abbrev TypeVar := Nat

/-- Modelled from the spec: the partially-known shapes `TypeInfo<TypeVar>`
posted through `Known(a, shape)` (§4.F): an outer constructor whose children
are themselves variables.  The per-function walk only ever posts pointer and
function shapes. -/
inductive TypeInfoVar where
  | Pointer (inner : TypeVar)
  | Function (params : List TypeVar) (ret : TypeVar)
  deriving Repr, DecidableEq

/-- Modelled from the spec: the constraint forms of §4.F.  `KnownType` is
the `fully_known` form: the variable equals a concrete resolved type with no
solver variables inside.  Origins, which §4.F uses only for diagnostics, are
dropped. -/
inductive Constraint where
  | Equal (a b : TypeVar)
  | Known (a : TypeVar) (info : TypeInfoVar)
  | KnownType (a : TypeVar) (ty : cst.Ty)
  | TupleIndex (result target : TypeVar) (index : Nat)
  | StructIndex (result target : TypeVar) (name : String)
  | ArrayIndex (result target : TypeVar)
  | AddSub (a b : TypeVar)
  | UnknownInt (a : TypeVar)
  | UnknownDefaultVoid (a : TypeVar)

/-- Modelled from the spec: the `TypeProblem` solver state (§4.F) reduced to
what the constraint-generation walk observes: the next fresh dense variable
index and the constraint list in insertion order (§4.F requires insertion
order for deterministic diagnostics). -/
structure TypeProblem where
  next : Nat
  constraints : List Constraint

namespace TypeProblem

/-- Modelled from the spec: the primitive variables handed out by
`ty_void`/`ty_bool`/`ty_byte`/`ty_int` are created once at problem setup
and cached; they are modelled as the fixed indices 0–3. -/
def new : TypeProblem :=
  { next := 4,
    constraints := [.KnownType 0 .Void, .KnownType 1 .Bool,
                    .KnownType 2 .Byte, .KnownType 3 .Int] }

def tyVoid (_ : TypeProblem) : TypeVar := 0

def tyBool (_ : TypeProblem) : TypeVar := 1

def tyByte (_ : TypeProblem) : TypeVar := 2

def tyInt (_ : TypeProblem) : TypeVar := 3

/-- `TypeProblem::unknown`: a fresh unconstrained variable. -/
def unknown (p : TypeProblem) : TypeVar × TypeProblem :=
  (p.next, { p with next := p.next + 1 })

/-- `TypeProblem::known`: a fresh variable constrained to a shape. -/
def known (p : TypeProblem) (info : TypeInfoVar) : TypeVar × TypeProblem :=
  (p.next, ⟨p.next + 1, p.constraints ++ [.Known p.next info]⟩)

/-- `TypeProblem::fully_known`: a fresh variable equal to a concrete
resolved type. -/
def fullyKnown (p : TypeProblem) (ty : cst.Ty) : TypeVar × TypeProblem :=
  (p.next, ⟨p.next + 1, p.constraints ++ [.KnownType p.next ty]⟩)

/-- `TypeProblem::unknown_int`: a fresh variable defaulting to `int`. -/
def unknownInt (p : TypeProblem) : TypeVar × TypeProblem :=
  (p.next, ⟨p.next + 1, p.constraints ++ [.UnknownInt p.next]⟩)

/-- `TypeProblem::unknown_default_void`: a fresh variable defaulting to
`void`. -/
def unknownDefaultVoid (p : TypeProblem) : TypeVar × TypeProblem :=
  (p.next, ⟨p.next + 1, p.constraints ++ [.UnknownDefaultVoid p.next]⟩)

/-- `TypeProblem::equal`. -/
def equal (p : TypeProblem) (a b : TypeVar) : TypeProblem :=
  { p with constraints := p.constraints ++ [.Equal a b] }

/-- `TypeProblem::add_sub_constraint`. -/
def addSubConstraint (p : TypeProblem) (a b : TypeVar) : TypeProblem :=
  { p with constraints := p.constraints ++ [.AddSub a b] }

/-- `TypeProblem::tuple_index`: a fresh result variable plus the composite
constraint. -/
def tupleIndex (p : TypeProblem) (target : TypeVar) (index : Nat) :
    TypeVar × TypeProblem :=
  (p.next, ⟨p.next + 1, p.constraints ++ [.TupleIndex p.next target index]⟩)

/-- `TypeProblem::struct_index`. -/
def structIndex (p : TypeProblem) (target : TypeVar) (name : String) :
    TypeVar × TypeProblem :=
  (p.next, ⟨p.next + 1, p.constraints ++ [.StructIndex p.next target name]⟩)

/-- `TypeProblem::array_index`. -/
def arrayIndex (p : TypeProblem) (target : TypeVar) :
    TypeVar × TypeProblem :=
  (p.next, ⟨p.next + 1, p.constraints ++ [.ArrayIndex p.next target]⟩)

end TypeProblem

/-! ## `src/front/cst.rs` — scoped items and path/type resolution
(modelled) -/

/-- Modelled from the spec: the scoped values of §4.G (`src/front/cst.rs`
is not among the given sources).  The `Function`, `Const` and `Immediate`
variants are collapsed into `Mapped`: the type walk observes them only
through `(self.map_value)(value).ty(&self.types)`, the user-visible source
type of the mapped value (`src/front/type_func.rs` line 63). -/
inductive ScopedValue where
  | TypeVar (v : TypeVar)
  | Mapped (ty : cst.Ty)

/-- Modelled from the spec: `ScopedItem` is `Type(t)`, `Value(v)` or
`Module(m)` (§4.D).  `Type` is a Lean keyword, so that constructor is `Ty`;
a module item carries its scope's value map. -/
inductive ScopedItem where
  | Ty (t : cst.Ty)
  | Value (v : ScopedValue)
  | Module (values : List (String × ScopedItem))

/-- Modelled from the spec: identifier lookup immediate-then-parent along
the scope chain (§4.D); `UndeclaredIdentifier` when absent.  The type walk
passes no root scope (`ScopeKind::Real` uses the plain chain). -/
def scopeFindItem (scope : Scope ScopedItem) (id : ast.Identifier) :
    Except Error ScopedItem :=
  match Scope.lookupChain scope.chain id.string with
  | some item => .ok item
  | none => .error (.UndeclaredIdentifier id)

/-- Modelled from the spec: walking the non-first path segments strictly
inside module values, rejecting segments that resolve to non-module kinds
before the final one (§4.D). -/
def resolvePathIn (path : ast.Path) :
    ScopedItem → List ast.Identifier → Except Error ScopedItem
  | item, [] => .ok item
  | item, seg :: rest =>
      match item with
      | .Module values =>
          match Scope.mapGet values seg.string with
          | some item' => resolvePathIn path item' rest
          | none => .error (.UndeclaredIdentifier seg)
      | _ => .error (.ItemKindMismatch path)

/-- Modelled from the spec: `ItemStore::resolve_path` (§4.D): the first
segment resolves immediate-then-parent in the given scope, every further
segment strictly inside module values. -/
def resolvePath (scope : Scope ScopedItem) (path : ast.Path) :
    Except Error ScopedItem :=
  match path.parents with
  | [] => scopeFindItem scope path.id
  | p0 :: rest => do
      let first ← scopeFindItem scope p0
      resolvePathIn path first (rest ++ [path.id])

/-- The two mutually recursive faces of `ItemStore::resolve_type`, made
fuel-indexed so that concrete runs reduce inside the kernel (the source
recursion is structural on the syntactic type). -/
structure ResolveTyFns where
  one : Scope ScopedItem → ast.Ty → RRes Error cst.Ty
  listF : Scope ScopedItem → List ast.Ty → RRes Error (List cst.Ty)

/-- Modelled from the spec: `ItemStore::resolve_type` (§4.B, §4.D) maps a
syntactic type to a resolved `cst` type: a source-level `_` becomes
`Wildcard`, `&T` a pointer, and a path must resolve to a type item. -/
def resolveTyFns : Nat → ResolveTyFns
  | 0 => ⟨fun _ _ => .spin, fun _ _ => .spin⟩
  | fuel + 1 =>
      let F := resolveTyFns fuel
      { one := fun scope t =>
          match t with
          | .mk _ k =>
            match k with
            | .Wildcard => .ok .Wildcard
            | .Void => .ok .Void
            | .Bool => .ok .Bool
            | .Byte => .ok .Byte
            | .Int => .ok .Int
            | .Ref inner => do
                let t' ← F.one scope inner
                .ok (.Pointer t')
            | .Path p =>
                match resolvePath scope p with
                | .error e => .err e
                | .ok (.Ty t') => .ok t'
                | .ok _ => .err (.ItemKindMismatch p)
            | .Func params ret => do
                let ps ← F.listF scope params
                let r ← F.one scope ret
                .ok (.Func ps r)
            | .Tuple fields => do
                let fs ← F.listF scope fields
                .ok (.Tuple fs)
            | .Array inner length => do
                let t' ← F.one scope inner
                .ok (.Array t' length),
        listF := fun scope ts =>
          match ts with
          | [] => .ok []
          | t :: rest => do
              let t' ← F.one scope t
              let rest' ← F.listF scope rest
              .ok (t' :: rest') }

def resolveType (fuel : Nat) (scope : Scope ScopedItem) (t : ast.Ty) :
    RRes Error cst.Ty :=
  (resolveTyFns fuel).one scope t

/-! ## `src/front/type_func.rs` — the per-function type walk -/

/-- `TypeFuncState` from `src/front/type_func.rs`, reduced to the fields the
walk observes: the function's declared return type and the constraint
problem.  The item/type stores are absorbed into the modelled `resolveType`
and `ScopedValue.Mapped`; the pointer-keyed `expr_type_map`/`decl_type_map`
caches (read only by the later lowering pass, with an insert-once assertion
that holds because the walk visits each distinct AST node once) are
dropped. -/
structure TypeFuncState where
  retTy : cst.Ty
  problem : TypeProblem

/-- The five mutually recursive faces of the walk
(`visit_expr`, its argument-list loop, `visit_statement`, the statement
loop of `visit_nested_block`, and `visit_nested_block`), made fuel-indexed
so that concrete runs reduce inside the kernel; the wrappers below recover
the source shapes.  `visit_statement` takes `&mut Scope`, so it returns the
possibly-extended scope. -/
structure TypeFuncFns where
  visitExpr : TypeFuncState → Scope ScopedItem → ast.Expression →
    RRes Error (TypeVar × TypeFuncState)
  visitExprList : TypeFuncState → Scope ScopedItem → List ast.Expression →
    RRes Error (List TypeVar × TypeFuncState)
  visitStatement : TypeFuncState → Scope ScopedItem → ast.Statement →
    RRes Error (Scope ScopedItem × TypeFuncState)
  visitStatementList : TypeFuncState → Scope ScopedItem →
    List ast.Statement → RRes Error (Scope ScopedItem × TypeFuncState)
  visitNestedBlock : TypeFuncState → Scope ScopedItem → ast.Block →
    RRes Error TypeFuncState

/-- `TypeFuncState::visit_expr` / `visit_statement` / `visit_nested_block`
from `src/front/type_func.rs`, arm for arm and in source constraint order.
The `assert!(!decl.mutable, "everything is mutable for now")` at line 202
is the `.panic` arm of the declaration case. -/
def typeFuncFns : Nat → TypeFuncFns
  | 0 =>
      { visitExpr := fun _ _ _ => .spin,
        visitExprList := fun _ _ _ => .spin,
        visitStatement := fun _ _ _ => .spin,
        visitStatementList := fun _ _ _ => .spin,
        visitNestedBlock := fun _ _ _ => .spin }
  | fuel + 1 =>
      let F := typeFuncFns fuel
      { visitExpr := fun s scope e =>
          match e with
          | .mk _ k =>
            match k with
            | .Null =>
                -- null can take on any pointer type
                let r1 := s.problem.unknown
                let r2 := r1.2.known (.Pointer r1.1)
                .ok (r2.1, { s with problem := r2.2 })
            | .BoolLit _ => .ok (s.problem.tyBool, s)
            | .IntLit _ =>
                let r1 := s.problem.unknownInt
                .ok (r1.1, { s with problem := r1.2 })
            | .StringLit _ =>
                let r1 := s.problem.known (.Pointer s.problem.tyByte)
                .ok (r1.1, { s with problem := r1.2 })
            | .Path path =>
                match resolvePath scope path with
                | .error e' => .err e'
                | .ok item =>
                    match item with
                    | .Value (.TypeVar var) => .ok (var, s)
                    | .Value (.Mapped ty) =>
                        let r1 := s.problem.fullyKnown ty
                        .ok (r1.1, { s with problem := r1.2 })
                    | _ => .err (.ItemKindMismatch path)
            | .Ternary condition thenValue elseValue => do
                let rc ← F.visitExpr s scope condition
                let s1 := rc.2
                let s1' := { s1 with
                  problem := s1.problem.equal rc.1 s1.problem.tyBool }
                let rv := s1'.problem.unknown
                let s2 := { s1' with problem := rv.2 }
                let rt ← F.visitExpr s2 scope thenValue
                let re ← F.visitExpr rt.2 scope elseValue
                let s3 := re.2
                let s4 := { s3 with problem := s3.problem.equal rv.1 rt.1 }
                let s5 := { s4 with problem := s4.problem.equal rv.1 re.1 }
                .ok (rv.1, s5)
            | .Binary kind left right => do
                let rl ← F.visitExpr s scope left
                let rr ← F.visitExpr rl.2 scope right
                let s2 := rr.2
                match kind with
                | .Add | .Sub =>
                    .ok (rl.1, { s2 with
                      problem := s2.problem.addSubConstraint rl.1 rr.1 })
                | .Mul | .Div | .Mod =>
                    let rv := s2.problem.unknownInt
                    let p1 := rv.2.equal rv.1 rl.1
                    let p2 := p1.equal rv.1 rr.1
                    .ok (rv.1, { s2 with problem := p2 })
                | .Eq | .Neq | .Gte | .Gt | .Lte | .Lt =>
                    let rv := s2.problem.unknownInt
                    let p1 := rv.2.equal rv.1 rl.1
                    let p2 := p1.equal rv.1 rr.1
                    .ok (s2.problem.tyBool, { s2 with problem := p2 })
            | .Unary kind inner =>
                match kind with
                | .Ref => do
                    let ri ← F.visitExpr s scope inner
                    let r1 := ri.2.problem.known (.Pointer ri.1)
                    .ok (r1.1, { ri.2 with problem := r1.2 })
                | .Deref => do
                    let ri ← F.visitExpr s scope inner
                    let rd := ri.2.problem.unknown
                    let rp := rd.2.known (.Pointer rd.1)
                    let p1 := rp.2.equal ri.1 rp.1
                    .ok (rd.1, { ri.2 with problem := p1 })
                | .Neg => do
                    let rv := s.problem.unknownInt
                    let s1 := { s with problem := rv.2 }
                    let ri ← F.visitExpr s1 scope inner
                    let p1 := ri.2.problem.equal rv.1 ri.1
                    .ok (rv.1, { ri.2 with problem := p1 })
            | .Call target args => do
                let rt ← F.visitExpr s scope target
                let ra ← F.visitExprList rt.2 scope args
                let rr := ra.2.problem.unknown
                let rm := rr.2.known (.Function ra.1 rr.1)
                let p1 := rm.2.equal rt.1 rm.1
                .ok (rr.1, { ra.2 with problem := p1 })
            | .DotIndex target index => do
                let rt ← F.visitExpr s scope target
                match index with
                | .Tuple _ i =>
                    let r1 := rt.2.problem.tupleIndex rt.1 i
                    .ok (r1.1, { rt.2 with problem := r1.2 })
                | .Struct id =>
                    let r1 := rt.2.problem.structIndex rt.1 id.string
                    .ok (r1.1, { rt.2 with problem := r1.2 })
            | .ArrayIndex target index => do
                let rt ← F.visitExpr s scope target
                let ri ← F.visitExpr rt.2 scope index
                let s2 := ri.2
                let p1 := s2.problem.equal s2.problem.tyInt ri.1
                let r1 := p1.arrayIndex rt.1
                .ok (r1.1, { s2 with problem := r1.2 })
            | .Cast value ty => do
                let rb ← F.visitExpr s scope value
                -- require that the value expression has a pointer type
                let s1 := rb.2
                let rbi := s1.problem.unknown
                let rbm := rbi.2.known (.Pointer rbi.1)
                let p1 := rbm.2.equal rb.1 rbm.1
                let s2 := { s1 with problem := p1 }
                let afterTy ← resolveType fuel scope ty
                let r1 := s2.problem.fullyKnown afterTy
                .ok (r1.1, { s2 with problem := r1.2 })
            | .Return value => do
                let rv ← match value with
                  | some v => F.visitExpr s scope v
                  | none => .ok (s.problem.tyVoid, s)
                let s1 := rv.2
                let rr := s1.problem.fullyKnown s1.retTy
                let p1 := rr.2.equal rr.1 rv.1
                let r1 := p1.unknownDefaultVoid
                .ok (r1.1, { s1 with problem := r1.2 })
            | .Continue =>
                let r1 := s.problem.unknownDefaultVoid
                .ok (r1.1, { s with problem := r1.2 })
            | .Break =>
                let r1 := s.problem.unknownDefaultVoid
                .ok (r1.1, { s with problem := r1.2 }),
        visitExprList := fun s scope es =>
          match es with
          | [] => .ok ([], s)
          | e :: rest => do
              let r1 ← F.visitExpr s scope e
              let r2 ← F.visitExprList r1.2 scope rest
              .ok (r1.1 :: r2.1, r2.2),
        visitStatement := fun s scope stmt =>
          match stmt with
          | .mk _ k =>
            match k with
            | .Declaration decl =>
                if decl.mutable then .panic
                else do
                  let re ← match decl.ty with
                    | none =>
                        let r1 := s.problem.unknown
                        .ok (r1.1, { s with problem := r1.2 })
                    | some ty => do
                        let t ← resolveType fuel scope ty
                        let r1 := s.problem.fullyKnown t
                        .ok (r1.1, { s with problem := r1.2 })
                  let rv ← match decl.init with
                    | none =>
                        let r1 := re.2.problem.unknown
                        .ok (r1.1, { re.2 with problem := r1.2 })
                    | some init => F.visitExpr re.2 scope init
                  let s3 := { rv.2 with
                    problem := rv.2.problem.equal re.1 rv.1 }
                  let rd := scope.maybeDeclare decl.id
                    (.Value (.TypeVar re.1))
                  match rd.1 with
                  | .error e' => .err e'
                  | .ok _ => .ok (rd.2, s3)
            | .Assignment assign => do
                let ra ← F.visitExpr s scope assign.left
                let rv ← F.visitExpr ra.2 scope assign.right
                .ok (scope, { rv.2 with
                  problem := rv.2.problem.equal ra.1 rv.1 })
            | .If is =>
                match is with
                | .mk _ cond thenBlock elseBlock => do
                    let rc ← F.visitExpr s scope cond
                    let s1 := rc.2
                    let s2 := { s1 with
                      problem := s1.problem.equal rc.1 s1.problem.tyBool }
                    let s3 ← F.visitNestedBlock s2 scope thenBlock
                    match elseBlock with
                    | some elseB => do
                        let s4 ← F.visitNestedBlock s3 scope elseB
                        .ok (scope, s4)
                    | none => .ok (scope, s3)
            | .While ws =>
                match ws with
                | .mk _ cond body => do
                    let rc ← F.visitExpr s scope cond
                    let s1 := rc.2
                    let s2 := { s1 with
                      problem := s1.problem.equal rc.1 s1.problem.tyBool }
                    let s3 ← F.visitNestedBlock s2 scope body
                    .ok (scope, s3)
            | .For fs =>
                match fs with
                | .mk _ index indexTy start stop body => do
                    let ri ← match indexTy with
                      | some ty => do
                          let t ← resolveType fuel scope ty
                          let r1 := s.problem.fullyKnown t
                          .ok (r1.1, { s with problem := r1.2 })
                      | none =>
                          let r1 := s.problem.unknown
                          .ok (r1.1, { s with problem := r1.2 })
                    let rs ← F.visitExpr ri.2 scope start
                    let re ← F.visitExpr rs.2 scope stop
                    let ru := re.2.problem.unknownInt
                    let p1 := ru.2.equal ri.1 ru.1
                    let p2 := p1.equal ri.1 rs.1
                    let p3 := p2.equal ri.1 re.1
                    let s4 := { re.2 with problem := p3 }
                    let indexScope := scope.nest
                    let rd := indexScope.maybeDeclare index
                      (.Value (.TypeVar ri.1))
                    match rd.1 with
                    | .error e' => .err e'
                    | .ok _ => do
                        let s5 ← F.visitNestedBlock s4 rd.2 body
                        .ok (scope, s5)
            | .Block block => do
                let s1 ← F.visitNestedBlock s scope block
                .ok (scope, s1)
            | .Expression expr => do
                let r1 ← F.visitExpr s scope expr
                .ok (scope, r1.2),
        visitStatementList := fun s scope stmts =>
          match stmts with
          | [] => .ok (scope, s)
          | st :: rest => do
              let r1 ← F.visitStatement s scope st
              F.visitStatementList r1.2 r1.1 rest,
        visitNestedBlock := fun s scope block =>
          match block with
          | .mk _ statements => do
              let r1 ← F.visitStatementList s scope.nest statements
              .ok r1.2 }

def TypeFuncState.visitExpr (fuel : Nat) (s : TypeFuncState)
    (scope : Scope ScopedItem) (e : ast.Expression) :
    RRes Error (TypeVar × TypeFuncState) :=
  (typeFuncFns fuel).visitExpr s scope e

def TypeFuncState.visitStatement (fuel : Nat) (s : TypeFuncState)
    (scope : Scope ScopedItem) (stmt : ast.Statement) :
    RRes Error (Scope ScopedItem × TypeFuncState) :=
  (typeFuncFns fuel).visitStatement s scope stmt

def TypeFuncState.visitNestedBlock (fuel : Nat) (s : TypeFuncState)
    (scope : Scope ScopedItem) (block : ast.Block) :
    RRes Error TypeFuncState :=
  (typeFuncFns fuel).visitNestedBlock s scope block

/-! ## `src/mid/ir.rs` and `src/front/lower.rs` — constant lowering -/

/-- IR types, structurally.  The source interns them as handles in
`ir::Program`; structural equality is exactly handle equality there.  The
given `src/mid/ir.rs` is an older snapshot whose `TypeInfo` still carries a
pointee and has no arrays, while `src/front/lower.rs` uses the erased
`prog.ty_ptr()` and `define_type_array`; the `Ptr` and `Array` forms follow
the spec (§4.E: a single erased pointer type; arrays keep their length). -/
inductive IrType where
  | Void
  | Integer (bits : Nat)
  | Ptr
  | Func (params : List IrType) (ret : IrType)
  | Tuple (fields : List IrType)
  | Array (inner : IrType) (length : Nat)

/-- The `ir::Value` variants produced by `map_constant`: a constant with an
IR type and an `i32` payload, and a string-data entry.  `Value::Data` holds
a handle into the program's data arena; the model inlines the pointed-to
`DataInfo` (whose `ty`/`inner_ty`/`bytes` fields follow the construction in
`src/front/lower.rs`; the given `src/mid/ir.rs` snapshot predates the
`inner_ty` field). -/
inductive IrValue where
  | Const (ty : IrType) (value : Int)
  | Data (ty : IrType) (innerTy : IrType) (bytes : List Nat)

/-- `TypedValue` from `src/front/lower.rs`: an `ir::Value` with its
corresponding source type. -/
structure TypedValue where
  ty : cst.Ty
  ir : IrValue

/-- `LRValue` from `src/front/lower.rs`. -/
inductive LRValue where
  | Left (v : TypedValue)
  | Right (v : TypedValue)

/-- The two mutually recursive faces of
`MappingTypeStore::map_type` (one type / a field list), fuel-indexed so
that concrete runs reduce inside the kernel. -/
structure MapTypeFns where
  one : cst.Ty → RRes Error IrType
  listF : List cst.Ty → RRes Error (List IrType)

/-- `MappingTypeStore::map_type` from `src/front/lower.rs`, arm for arm:
mapping a placeholder or wildcard panics; `Void` maps to the pointer type
(`prog.ty_ptr()`); scalars map to 1/8/32-bit integers; tuples and struct
bodies to IR tuples; functions via `map_type_func` (params first, then the
return type).  The memoising cache only affects sharing, not results, and
is dropped. -/
def mapTypeFns : Nat → MapTypeFns
  | 0 => ⟨fun _ => .spin, fun _ => .spin⟩
  | fuel + 1 =>
      let F := mapTypeFns fuel
      { one := fun ty =>
          match ty with
          | .Placeholder _ => .panic
          | .Wildcard => .panic
          | .Void => .ok .Ptr
          | .Bool => .ok (.Integer 1)
          | .Byte => .ok (.Integer 8)
          | .Int => .ok (.Integer 32)
          | .Pointer _ => .ok .Ptr
          | .Tuple fields => do
              let fs ← F.listF fields
              .ok (.Tuple fs)
          | .Func params ret => do
              let ps ← F.listF params
              let r ← F.one ret
              .ok (.Func ps r)
          | .Struct fields => do
              let fs ← F.listF fields
              .ok (.Tuple fs)
          | .Array inner length => do
              let i ← F.one inner
              .ok (.Array i length),
        listF := fun tys =>
          match tys with
          | [] => .ok []
          | t :: rest => do
              let t' ← F.one t
              let rest' ← F.listF rest
              .ok (t' :: rest') }

def mapType (fuel : Nat) (ty : cst.Ty) : RRes Error IrType :=
  (mapTypeFns fuel).one ty

/-- Structural equality of resolved types, fuel-indexed.  The source
compares interned handles with `==`; interning is keyed by structural
equality (§4.B), so handle equality is structural equality. -/
def cstTyBeq : Nat → cst.Ty → cst.Ty → Bool
  | 0, _, _ => false
  | fuel + 1, a, b =>
      match a, b with
      | .Placeholder i, .Placeholder j => i == j
      | .Wildcard, .Wildcard => true
      | .Void, .Void => true
      | .Bool, .Bool => true
      | .Byte, .Byte => true
      | .Int, .Int => true
      | .Pointer x, .Pointer y => cstTyBeq fuel x y
      | .Tuple xs, .Tuple ys =>
          xs.length == ys.length &&
          (List.zip xs ys).all fun pr => cstTyBeq fuel pr.1 pr.2
      | .Func ps r, .Func qs u =>
          (ps.length == qs.length &&
           (List.zip ps qs).all fun pr => cstTyBeq fuel pr.1 pr.2) &&
          cstTyBeq fuel r u
      | .Struct xs, .Struct ys =>
          xs.length == ys.length &&
          (List.zip xs ys).all fun pr => cstTyBeq fuel pr.1 pr.2
      | .Array x n, .Array y m => cstTyBeq fuel x y && n == m
      | _, _ => false

/-- `check_type_match` from `src/front/lower.rs`. -/
def checkTypeMatch (fuel : Nat) (expr : ast.Expression)
    (expected actual : cst.Ty) : Except Error Unit :=
  if cstTyBeq fuel expected actual then .ok ()
  else .error (.TypeMismatch expr expected.format actual.format)

/-- `check_integer_type` from `src/front/lower.rs`. -/
def checkIntegerType (expr : ast.Expression) (actual : cst.Ty) :
    Except Error Unit :=
  match actual with
  | .Byte => .ok ()
  | .Int => .ok ()
  | _ => .error (.ExpectIntegerType expr actual.format)

/-- `check_ptr_type` from `src/front/lower.rs`. -/
def checkPtrType (expr : ast.Expression) (actual : cst.Ty) :
    Except Error Unit :=
  match actual with
  | .Pointer _ => .ok ()
  | _ => .error (.ExpectPointerType expr actual.format)

/-- An infallible `Result` embeds into `RRes`. -/
def liftE {α : Type} : Except Error α → RRes Error α
  | .ok a => .ok a
  | .error e => .err e

/-- Modelled from the spec: `cst::ConstDecl` pairs a constant's resolved
declared type with its AST node (`src/front/cst.rs` is not among the given
sources; the two fields are the ones `map_constant` reads). -/
structure ConstDecl where
  ty : cst.Ty
  ast : ast.Const

/-- `map_constant` from `src/front/lower.rs`, arm for arm.  String bytes
are modelled as the character code points, which agrees with the source's
UTF-8 `value.bytes()` on ASCII content; the `for now only simple literal
constants are supported` catch-all is the `.panic` arm. -/
def mapConstant (fuel : Nat) (decl : ConstDecl) : RRes Error LRValue :=
  let ty := decl.ty
  let init := decl.ast.init
  match init.kind with
  | .IntLit value => do
      let _ ← liftE (checkIntegerType init ty)
      match rustParseI32 value with
      | none => .err (.InvalidLiteral init.span value ty.format)
      | some v => do
          let tyIr ← mapType fuel ty
          .ok (.Right ⟨ty, .Const tyIr v⟩)
  | .BoolLit value => do
      let _ ← liftE (checkTypeMatch fuel init .Bool ty)
      .ok (.Right ⟨ty, .Const (.Integer 1) (if value then 1 else 0)⟩)
  | .StringLit value => do
      let _ ← liftE (checkTypeMatch fuel init (.Pointer .Byte) ty)
      let tyByteIr ← mapType fuel .Byte
      let tyBytePtrIr ← mapType fuel (.Pointer .Byte)
      .ok (.Right ⟨ty, .Data tyBytePtrIr tyByteIr
        (value.toList.map Char.toNat)⟩)
  | .Null => do
      let _ ← liftE (checkPtrType init ty)
      let tyIr ← mapType fuel ty
      .ok (.Right ⟨ty, .Const tyIr 0⟩)
  | _ => .panic

/-! ### Concrete inputs used by the claim counterexamples and witnesses -/

/-- A scope binding `x` to solver variable 4. -/
def scopeC2 : Scope ScopedItem :=
  .mk [("x", .Value (.TypeVar 4))] none

/-- A walk state: return type `void`, next variable 5, no constraints. -/
def stC2 : TypeFuncState := ⟨cst.Ty.Void, ⟨5, []⟩⟩

/-- The expression `x`. -/
def valueC2 : ast.Expression :=
  .mk spanW (.Path ⟨spanW, [], ⟨spanW, "x"⟩⟩)

/-- The syntactic type `int`. -/
def tyIntC2 : ast.Ty := .mk spanW .Int

/-- The expression `x as int`. -/
def castC2 : ast.Expression := .mk spanW (.Cast valueC2 tyIntC2)

/-- The declaration `let mut x = 1;`. -/
def declMutC3 : ast.Declaration :=
  ⟨spanW, true, none, .Identifier ⟨spanW, "x"⟩, some (.mk spanW (.IntLit "1"))⟩

/-- The declaration `let x = 1;`. -/
def declImmC3 : ast.Declaration :=
  ⟨spanW, false, none, .Identifier ⟨spanW, "x"⟩, some (.mk spanW (.IntLit "1"))⟩

/-- A walk state: return type `void`, next variable 0, no constraints. -/
def stC3 : TypeFuncState := ⟨cst.Ty.Void, ⟨0, []⟩⟩

/-- A module constant `const c: int = <text>;` with resolved type `int`. -/
def constDeclW (text : String) : ConstDecl :=
  ⟨cst.Ty.Int, ⟨spanW, ⟨spanW, "c"⟩, .mk spanW .Int, .mk spanW (.IntLit text)⟩⟩

/-- The walk state after visiting `x as int` from `stC2`. -/
def stC2' : TypeFuncState :=
  ⟨cst.Ty.Void, ⟨8,
    [Constraint.Known 6 (TypeInfoVar.Pointer 5),
     Constraint.Equal 4 6,
     Constraint.KnownType 7 cst.Ty.Int]⟩⟩

-- ════════════════════════════════════════════════════════════════════
-- Theorems
-- ════════════════════════════════════════════════════════════════════

@[simp] theorem RRes.ok_bind {ε α β : Type} (a : α) (f : α → RRes ε β) :
    (RRes.ok a : RRes ε α) >>= f = f a := rfl

@[simp] theorem RRes.err_bind {ε α β : Type} (e : ε) (f : α → RRes ε β) :
    (RRes.err e : RRes ε α) >>= f = .err e := rfl

@[simp] theorem RRes.panic_bind {ε α β : Type} (f : α → RRes ε β) :
    (RRes.panic : RRes ε α) >>= f = .panic := rfl

@[simp] theorem RRes.spin_bind {ε α β : Type} (f : α → RRes ε β) :
    (RRes.spin : RRes ε α) >>= f = .spin := rfl

@[simp] theorem RRes.pure_def {ε α : Type} (a : α) :
    (pure a : RRes ε α) = .ok a := rfl

theorem nextMultipleNat_dvd (x d : Nat) : d ∣ nextMultipleNat x d :=
  dvd_mul_left d ((x + d - 1) / d)

theorem le_nextMultipleNat (x d : Nat) (h : 0 < d) : x ≤ nextMultipleNat x d := by
  obtain ⟨e, rfl⟩ : ∃ e, d = e + 1 := ⟨d - 1, by omega⟩
  unfold nextMultipleNat
  have h5 : x + (e + 1) - 1 = x + e := by omega
  rw [h5]
  have h3 : (e + 1) * ((x + e) / (e + 1)) + (x + e) % (e + 1) = x + e :=
    Nat.div_add_mod _ _
  have h4 : (x + e) % (e + 1) < e + 1 := Nat.mod_lt _ (by omega)
  nlinarith [h3, h4]

/-- `wrap32` is the identity on `i32`-range values. -/
theorem wrap32_eq (x : Int) (h1 : -2147483648 ≤ x) (h2 : x < 2147483648) :
    wrap32 x = x := by
  unfold wrap32
  rw [Int.emod_eq_of_lt (by omega) (by omega)]
  omega

/-- `wrap32` is the identity on naturals below `2^31`. -/
theorem wrap32_eq_of_lt (n : Nat) (h : n < 2147483648) :
    wrap32 (↑n) = ↑n :=
  wrap32_eq _ (le_trans (by norm_num) (Int.natCast_nonneg _))
    (by exact_mod_cast h)

/-- Rust's truncating division agrees with `Nat` division on casts. -/
theorem intTdiv_cast (a b : Nat) : Int.tdiv (↑a) (↑b) = ↑(a / b) := rfl

/-- Where no step overflows, the `i32` `next_multiple` agrees with the
unbounded one. -/
theorem nextMultiple_cast (n align : Nat) (h1 : 1 ≤ align)
    (hb : n + align < 2147483648) :
    nextMultiple (↑n) (↑align) = ↑(nextMultipleNat n align) := by
  have h2 : 1 ≤ n + align := by omega
  have e1 : ((↑n : Int) + ↑align) = ↑(n + align) := by push_cast; ring
  have e2 : ((↑(n + align) : Int) - 1) = ↑(n + align - 1) := by
    rw [Nat.cast_sub h2]; push_cast; ring
  have h3 : n + align - 1 < 2147483648 := by omega
  have h4 : (n + align - 1) / align * align ≤ n + align - 1 :=
    Nat.div_mul_le_self _ _
  have h5 : (n + align - 1) / align * align < 2147483648 := by omega
  have e3 : ((↑((n + align - 1) / align) : Int) * ↑align) =
      ↑((n + align - 1) / align * align) := by push_cast; ring
  unfold nextMultiple nextMultipleNat
  rw [e1, wrap32_eq_of_lt _ hb, e2, wrap32_eq_of_lt _ h3, intTdiv_cast, e3,
    wrap32_eq_of_lt _ h5]

/-- Accumulated alignment of the unbounded loop: it only grows, bounds
every field's alignment, and is either the initial value or one of the
field alignments. -/
theorem fromLayoutsGoNat_alignment (fields : List Layout) (nextOffset alignment : Nat) :
    alignment ≤ (fromLayoutsGoNat fields nextOffset alignment).2.2 ∧
    (∀ f ∈ fields, f.alignment.toNat ≤ (fromLayoutsGoNat fields nextOffset alignment).2.2) ∧
    ((fromLayoutsGoNat fields nextOffset alignment).2.2 = alignment ∨
      ∃ f ∈ fields, (fromLayoutsGoNat fields nextOffset alignment).2.2 = f.alignment.toNat) := by
  induction fields generalizing nextOffset alignment with
  | nil => simp [fromLayoutsGoNat]
  | cons f fs ih =>
    simp only [fromLayoutsGoNat]
    obtain ⟨ih1, ih2, ih3⟩ := ih (nextMultipleNat nextOffset f.alignment.toNat + f.size.toNat)
      (max alignment f.alignment.toNat)
    refine ⟨le_trans (le_max_left _ _) ih1, ?_, ?_⟩
    · intro g hg
      rcases List.mem_cons.1 hg with rfl | hg
      · exact le_trans (le_max_right _ _) ih1
      · exact ih2 g hg
    · rcases ih3 with h | ⟨g, hg, h⟩
      · rcases Nat.le_total alignment f.alignment.toNat with hle | hle
        · exact Or.inr ⟨f, List.mem_cons_self _ _, by rw [h, Nat.max_eq_right hle]⟩
        · exact Or.inl (by rw [h, Nat.max_eq_left hle])
      · exact Or.inr ⟨g, List.mem_cons_of_mem _ hg, h⟩

theorem fromLayoutsGoNat_length (fields : List Layout) (nextOffset alignment : Nat) :
    (fromLayoutsGoNat fields nextOffset alignment).1.length = fields.length := by
  induction fields generalizing nextOffset alignment with
  | nil => simp [fromLayoutsGoNat]
  | cons f fs ih => simp [fromLayoutsGoNat, ih]

/-- Every offset produced by the unbounded loop is at least the incoming
`next_offset`, and so is the final `next_offset`. -/
theorem fromLayoutsGoNat_ge (fields : List Layout) (nextOffset alignment : Nat)
    (h : ∀ f ∈ fields, 1 ≤ f.alignment.toNat) :
    (∀ o ∈ (fromLayoutsGoNat fields nextOffset alignment).1, nextOffset ≤ o) ∧
    nextOffset ≤ (fromLayoutsGoNat fields nextOffset alignment).2.1 := by
  induction fields generalizing nextOffset alignment with
  | nil => simp [fromLayoutsGoNat]
  | cons f fs ih =>
    simp only [fromLayoutsGoNat]
    have hf1 : 1 ≤ f.alignment.toNat := h f (List.mem_cons_self _ _)
    have hoff : nextOffset ≤ nextMultipleNat nextOffset f.alignment.toNat :=
      le_nextMultipleNat _ _ hf1
    obtain ⟨ih1, ih2⟩ := ih (nextMultipleNat nextOffset f.alignment.toNat + f.size.toNat)
      (max alignment f.alignment.toNat) (fun g hg => h g (List.mem_cons_of_mem _ hg))
    constructor
    · intro o ho
      rcases List.mem_cons.1 ho with rfl | ho
      · exact hoff
      · exact le_trans (le_trans hoff (Nat.le_add_right _ _)) (ih1 o ho)
    · exact le_trans (le_trans hoff (Nat.le_add_right _ _)) ih2

/-- The offsets produced by the unbounded loop are pairwise non-decreasing. -/
theorem fromLayoutsGoNat_chain (fields : List Layout) (nextOffset alignment : Nat)
    (h : ∀ f ∈ fields, 1 ≤ f.alignment.toNat) :
    List.Chain' (· ≤ ·) (fromLayoutsGoNat fields nextOffset alignment).1 := by
  induction fields generalizing nextOffset alignment with
  | nil => simp [fromLayoutsGoNat]
  | cons f fs ih =>
    simp only [fromLayoutsGoNat]
    refine List.chain'_cons'.2 ⟨?_, ih _ _ (fun g hg => h g (List.mem_cons_of_mem _ hg))⟩
    intro o ho
    have hmem : o ∈ (fromLayoutsGoNat fs
        (nextMultipleNat nextOffset f.alignment.toNat + f.size.toNat)
        (max alignment f.alignment.toNat)).1 := List.mem_of_mem_head? ho
    exact le_trans (Nat.le_add_right _ _)
      ((fromLayoutsGoNat_ge fs _ _ (fun g hg => h g (List.mem_cons_of_mem _ hg))).1 o hmem)

/-- Each offset of the unbounded loop is a multiple of its field's
alignment. -/
theorem fromLayoutsGoNat_dvd (fields : List Layout) (nextOffset alignment : Nat) :
    List.Forall₂ (fun (f : Layout) o => f.alignment.toNat ∣ o) fields
      (fromLayoutsGoNat fields nextOffset alignment).1 := by
  induction fields generalizing nextOffset alignment with
  | nil => simp [fromLayoutsGoNat]
  | cons f fs ih =>
    simp only [fromLayoutsGoNat]
    exact List.Forall₂.cons (nextMultipleNat_dvd _ _) (ih _ _)

/-- The final `next_offset` of the unbounded loop covers the last offset
plus the last field's size. -/
theorem fromLayoutsGoNat_last (fields : List Layout) (nextOffset alignment : Nat)
    (o : Nat) (f : Layout)
    (hlast : (fromLayoutsGoNat fields nextOffset alignment).1.getLast? = some o)
    (hflast : fields.getLast? = some f) :
    o + f.size.toNat ≤ (fromLayoutsGoNat fields nextOffset alignment).2.1 := by
  induction fields generalizing nextOffset alignment with
  | nil => simp at hflast
  | cons g fs ih =>
    cases fs with
    | nil =>
      simp only [fromLayoutsGoNat, List.getLast?_singleton, Option.some.injEq] at hlast hflast
      subst hlast
      subst hflast
      simp [fromLayoutsGoNat]
    | cons g' gs' =>
      simp only [List.getLast?_cons_cons] at hflast
      have hstep := ih (nextMultipleNat nextOffset g.alignment.toNat + g.size.toNat)
        (max alignment g.alignment.toNat)
        (by
          simp only [fromLayoutsGoNat] at hlast
          rw [List.getLast?_cons_cons] at hlast
          simpa [fromLayoutsGoNat] using hlast)
        hflast
      simp only [fromLayoutsGoNat] at hstep ⊢
      exact hstep

/-- Where the unbounded run stays below `2^31`, the `i32` loop follows it
exactly: every `wrap32` is the identity and the outputs are the casts of
the unbounded outputs. -/
theorem fromLayoutsGo_coincide (fields : List Layout) (n a : Nat)
    (hv : ∀ f ∈ fields, f.valid) (ha : 1 ≤ a)
    (hb : (fromLayoutsGoNat fields n a).2.1 +
          (fromLayoutsGoNat fields n a).2.2 < 2147483648) :
    fromLayoutsGo fields (↑n) (↑a) =
      ((fromLayoutsGoNat fields n a).1.map (fun m : Nat => (m : Int)),
       ↑(fromLayoutsGoNat fields n a).2.1,
       ↑(fromLayoutsGoNat fields n a).2.2) := by
  induction fields generalizing n a with
  | nil => simp [fromLayoutsGo, fromLayoutsGoNat]
  | cons f fs ih =>
    have hfv := hv f (List.mem_cons_self _ _)
    have hfsv : ∀ g ∈ fs, g.valid := fun g hg => hv g (List.mem_cons_of_mem _ hg)
    have hfs1 : ∀ g ∈ fs, 1 ≤ g.alignment.toNat := fun g hg => by
      have := (hfsv g hg).2.2.1
      omega
    have hfa0 : (0 : Int) ≤ f.alignment := le_trans (by norm_num) hfv.2.2.1
    have hfa1 : 1 ≤ f.alignment.toNat := by
      have := hfv.2.2.1
      omega
    have hfacast : (↑(f.alignment.toNat) : Int) = f.alignment :=
      Int.toNat_of_nonneg hfa0
    have hfscast : (↑(f.size.toNat) : Int) = f.size :=
      Int.toNat_of_nonneg hfv.1
    simp only [fromLayoutsGoNat] at hb ⊢
    have hoffge : n ≤ nextMultipleNat n f.alignment.toNat :=
      le_nextMultipleNat _ _ hfa1
    have hge := (fromLayoutsGoNat_ge fs
      (nextMultipleNat n f.alignment.toNat + f.size.toNat)
      (max a f.alignment.toNat) hfs1).2
    have halign := (fromLayoutsGoNat_alignment fs
      (nextMultipleNat n f.alignment.toNat + f.size.toNat)
      (max a f.alignment.toNat)).1
    have hmr := le_max_right a f.alignment.toNat
    have hstepb : n + f.alignment.toNat < 2147483648 := by omega
    have e1 : nextMultiple (↑n) f.alignment =
        ↑(nextMultipleNat n f.alignment.toNat) := by
      rw [← hfacast]
      exact nextMultiple_cast _ _ hfa1 hstepb
    have e2 : wrap32 (↑(nextMultipleNat n f.alignment.toNat) + f.size) =
        ↑(nextMultipleNat n f.alignment.toNat + f.size.toNat) := by
      rw [← hfscast]
      rw [show ((↑(nextMultipleNat n f.alignment.toNat) : Int) + ↑(f.size.toNat)) =
          ↑(nextMultipleNat n f.alignment.toNat + f.size.toNat) by push_cast; ring]
      exact wrap32_eq_of_lt _ (by omega)
    have e3 : max (↑a : Int) f.alignment = ↑(max a f.alignment.toNat) := by
      rw [Nat.cast_max, hfacast]
    simp only [fromLayoutsGo]
    rw [e1, e2, e3, ih _ _ hfsv (le_trans ha (le_max_left _ _)) hb]
    simp

/-- Casting a `Forall₂` divisibility statement from the unbounded loop to
`Int`. -/
theorem forall₂_dvd_cast (fields : List Layout) (l : List Nat)
    (hv : ∀ f ∈ fields, (0 : Int) ≤ f.alignment)
    (h : List.Forall₂ (fun (f : Layout) o => f.alignment.toNat ∣ o) fields l) :
    List.Forall₂ (fun (f : Layout) (o : Nat) => f.alignment ∣ (o : Int)) fields l := by
  induction fields generalizing l with
  | nil => cases h; exact List.Forall₂.nil
  | cons f fs ih =>
    cases h with
    | cons hab htail =>
      refine List.Forall₂.cons ?_
        (ih _ (fun g hg => hv g (List.mem_cons_of_mem _ hg)) htail)
      rw [← Int.toNat_of_nonneg (hv f (List.mem_cons_self _ _))]
      exact Int.natCast_dvd_natCast.2 hab

namespace Scope

variable {V : Type}

theorem mapInsert_fst (m : List (String × V)) (k : String) (v : V) :
    (mapInsert m k v).1 = mapGet m k := by
  induction m with
  | nil => simp [mapInsert, mapGet]
  | cons p rest ih =>
    obtain ⟨k', v'⟩ := p
    by_cases h : k' = k <;> simp [mapInsert, mapGet, h, ih]

theorem mapInsert_get (m : List (String × V)) (k : String) (v : V) :
    mapGet (mapInsert m k v).2 k = some v := by
  induction m with
  | nil => simp [mapInsert, mapGet]
  | cons p rest ih =>
    obtain ⟨k', v'⟩ := p
    by_cases h : k' = k <;> simp [mapInsert, mapGet, h, ih]

/-- `Scope::find` with no root scope returns the first binding along the
parent chain. -/
theorem find_none_eq :
    ∀ (s : Scope V) (id : ast.Identifier),
      find s none id =
        match lookupChain s.chain id.string with
        | some v => .ok v
        | none => .error (.UndeclaredIdentifier id)
  | .mk values none, id => by
      rw [find]
      cases h : mapGet values id.string <;>
        simp [chain, lookupChain, h]
  | .mk values (some p), id => by
      rw [find]
      cases h : mapGet values id.string <;>
        simp [chain, lookupChain, h, find_none_eq p id]

/-- `Scope::find` with a root scope returns the first binding along the
parent chain extended by the root's chain. -/
theorem find_some_eq :
    ∀ (s : Scope V) (r : Scope V) (id : ast.Identifier),
      find s (some r) id =
        match lookupChain (s.chain ++ r.chain) id.string with
        | some v => .ok v
        | none => .error (.UndeclaredIdentifier id)
  | .mk values none, r, id => by
      rw [find]
      cases h : mapGet values id.string <;>
        simp [chain, lookupChain, h, find_none_eq r id]
  | .mk values (some p), r, id => by
      rw [find]
      cases h : mapGet values id.string <;>
        simp [chain, lookupChain, h, find_some_eq p r id]

end Scope

theorem applyAllPost_takeWhile_dropWhile (pred : PostFixState → Bool)
    (l : List PostFixState) (x : ast.Expression) :
    applyAllPost (l.dropWhile pred) (applyAllPost (l.takeWhile pred) x) =
      applyAllPost l x := by
  unfold applyAllPost
  rw [← List.foldl_append, List.takeWhile_append_dropWhile]

/-- The merge loop of `Parser::unary` on stacks with the levels the source
tables produce (all prefixes level 2, postfixes level 1 or 3): the leading
level-3 postfix operations are applied first (innermost), then all prefix
operations, then the remaining postfix operations. -/
theorem applyUnaryOpsGo_spec :
    ∀ (fuel : Nat) (pre : List PreFixState) (post : List PostFixState)
      (e : ast.Expression),
      pre.length + post.length < fuel →
      (∀ p ∈ pre, p.level = 2) →
      (∀ q ∈ post, q.level = postFixCastLevel ∨ q.level = postFixDefaultLevel) →
      applyUnaryOpsGo fuel pre post e = .ok
        (applyAllPost (post.dropWhile (fun q => q.level == postFixDefaultLevel))
          (applyAllPre pre
            (applyAllPost
              (post.takeWhile (fun q => q.level == postFixDefaultLevel)) e)))
  | 0, pre, post, e, hf, _, _ => by omega
  | _ + 1, [], [], e, _, _, _ => by
      simp [applyUnaryOpsGo, applyAllPre, applyAllPost]
  | fuel + 1, p :: pre, [], e, hf, hpre, hpost => by
      rw [applyUnaryOpsGo]
      rw [applyUnaryOpsGo_spec fuel pre [] (p.apply e) (by simp at hf ⊢; omega)
        (fun x hx => hpre x (List.mem_cons_of_mem _ hx)) hpost]
      simp [applyAllPre, applyAllPost]
  | fuel + 1, [], q :: post, e, hf, hpre, hpost => by
      have hq := hpost q (List.mem_cons_self _ _)
      rw [applyUnaryOpsGo]
      rw [applyUnaryOpsGo_spec fuel [] post (q.apply e) (by simp at hf ⊢; omega)
        hpre (fun x hx => hpost x (List.mem_cons_of_mem _ hx))]
      rcases hq with hq | hq
      · simp only [postFixCastLevel] at hq
        simp only [applyAllPre, List.foldl_nil]
        rw [applyAllPost_takeWhile_dropWhile]
        simp [List.takeWhile_cons, List.dropWhile_cons, hq, postFixDefaultLevel,
          applyAllPost]
      · simp only [postFixDefaultLevel] at hq
        simp [List.takeWhile_cons, List.dropWhile_cons, hq, postFixDefaultLevel,
          applyAllPre, applyAllPost]
  | fuel + 1, p :: pre, q :: post, e, hf, hpre, hpost => by
      have hp : p.level = 2 := hpre p (List.mem_cons_self _ _)
      have hq := hpost q (List.mem_cons_self _ _)
      rcases hq with hq | hq
      · -- cast postfix at the top: the prefix is applied first
        simp only [postFixCastLevel] at hq
        rw [applyUnaryOpsGo]
        rw [if_neg (by omega), if_pos (by omega)]
        rw [applyUnaryOpsGo_spec fuel pre (q :: post) (p.apply e)
          (by simp at hf ⊢; omega)
          (fun x hx => hpre x (List.mem_cons_of_mem _ hx)) hpost]
        simp [List.takeWhile_cons, List.dropWhile_cons, hq, postFixDefaultLevel,
          applyAllPre, applyAllPost]
      · -- level-3 postfix at the top: it is applied first
        simp only [postFixDefaultLevel] at hq
        rw [applyUnaryOpsGo]
        rw [if_neg (by omega), if_neg (by omega)]
        rw [applyUnaryOpsGo_spec fuel (p :: pre) post (q.apply e)
          (by simp at hf ⊢; omega) hpre
          (fun x hx => hpost x (List.mem_cons_of_mem _ hx))]
        simp [List.takeWhile_cons, List.dropWhile_cons, hq, postFixDefaultLevel,
          applyAllPre, applyAllPost]

/-- C4 counterexample: the fields `(2147483646, 2)`, `(2147483646, 2)`,
`(4, 4)` all pass `Layout::new`'s asserts, yet `next_offset` overflows
`i32` during the loop: with release-build wrapping arithmetic
`from_layouts` returns the decreasing offsets `[0, 2147483646, 0]` (and
still passes the final `Layout::new(4, 4)`), refuting the claimed
non-decreasing invariant; a debug build panics on the overflow at the same
input instead of returning. -/
theorem C4_counterexample :
    (∀ f ∈ [Layout.mk 2147483646 2, Layout.mk 2147483646 2, Layout.mk 4 4],
      f.valid)
  ∧ (TupleLayout.fromLayouts
      [Layout.mk 2147483646 2, Layout.mk 2147483646 2, Layout.mk 4 4]) =
      { layout := Layout.mk 4 4, offsets := [0, 2147483646, 0] }
  ∧ ¬ List.Chain' (· ≤ ·) (TupleLayout.fromLayouts
      [Layout.mk 2147483646 2, Layout.mk 2147483646 2, Layout.mk 4 4]).offsets := by
  refine ⟨by decide, by decide, ?_⟩
  have hoff : (TupleLayout.fromLayouts
      [Layout.mk 2147483646 2, Layout.mk 2147483646 2, Layout.mk 4 4]).offsets
      = [0, 2147483646, 0] := by decide
  rw [hoff]
  intro hc
  have h2 := (List.chain'_cons.1 (List.chain'_cons.1 hc).2).1
  norm_num at h2

/-- C4 (amended): `from_layouts` accumulates `next_offset` in `i32`.  For
every sequence of valid field layouts whose unbounded accumulation stays
below `2^31` — so no `i32` step overflows (no wrap in release builds, no
panic in debug builds) — the returned offsets are non-decreasing, each
offset is a multiple of its field's alignment, the total size is at least
the last offset plus the last field's size and is non-negative, and the
tuple alignment is at least 1, bounds every field alignment, is attained
by some field (or is 1), is 1 for the empty sequence, and divides the
total size.  Without the bound the invariants fail: see
`C4_counterexample`. -/
theorem C4_tuple_layout_invariants (fields : List Layout)
    (h : ∀ f ∈ fields, f.valid)
    (hb : (fromLayoutsGoNat fields 0 1).2.1 +
          (fromLayoutsGoNat fields 0 1).2.2 < 2147483648) :
    List.Chain' (· ≤ ·) (TupleLayout.fromLayouts fields).offsets
  ∧ List.Forall₂ (fun (f : Layout) o => f.alignment ∣ o) fields
      (TupleLayout.fromLayouts fields).offsets
  ∧ (∀ o f, (TupleLayout.fromLayouts fields).offsets.getLast? = some o →
      fields.getLast? = some f →
      o + f.size ≤ (TupleLayout.fromLayouts fields).layout.size)
  ∧ 1 ≤ (TupleLayout.fromLayouts fields).layout.alignment
  ∧ (∀ f ∈ fields, f.alignment ≤ (TupleLayout.fromLayouts fields).layout.alignment)
  ∧ ((TupleLayout.fromLayouts fields).layout.alignment = 1 ∨
      ∃ f ∈ fields, (TupleLayout.fromLayouts fields).layout.alignment = f.alignment)
  ∧ (fields = [] → (TupleLayout.fromLayouts fields).layout.alignment = 1)
  ∧ (TupleLayout.fromLayouts fields).layout.alignment ∣
      (TupleLayout.fromLayouts fields).layout.size
  ∧ 0 ≤ (TupleLayout.fromLayouts fields).layout.size := by
  have h1 : ∀ f ∈ fields, 1 ≤ f.alignment.toNat := fun f hf => by
    have := (h f hf).2.2.1
    omega
  have h0 : ∀ f ∈ fields, (0 : Int) ≤ f.alignment := fun f hf =>
    le_trans (by norm_num) (h f hf).2.2.1
  have hco := fromLayoutsGo_coincide fields 0 1 h le_rfl hb
  simp only [Nat.cast_zero, Nat.cast_one] at hco
  obtain ⟨ha1, ha2, ha3⟩ := fromLayoutsGoNat_alignment fields 0 1
  have hsz : nextMultiple (↑(fromLayoutsGoNat fields 0 1).2.1)
      (↑(fromLayoutsGoNat fields 0 1).2.2) =
      ↑(nextMultipleNat (fromLayoutsGoNat fields 0 1).2.1
        (fromLayoutsGoNat fields 0 1).2.2) :=
    nextMultiple_cast _ _ ha1 hb
  have hoff : (TupleLayout.fromLayouts fields).offsets =
      (fromLayoutsGoNat fields 0 1).1.map (fun m : Nat => (m : Int)) := by
    simp only [TupleLayout.fromLayouts, hco]
  have hA : (TupleLayout.fromLayouts fields).layout.alignment =
      ↑(fromLayoutsGoNat fields 0 1).2.2 := by
    simp only [TupleLayout.fromLayouts, hco]
  have hS : (TupleLayout.fromLayouts fields).layout.size =
      ↑(nextMultipleNat (fromLayoutsGoNat fields 0 1).2.1
        (fromLayoutsGoNat fields 0 1).2.2) := by
    simp only [TupleLayout.fromLayouts, hco]
    exact hsz
  rw [hoff, hA, hS]
  refine ⟨?_, ?_, ?_, ?_, ?_, ?_, ?_, ?_, Int.natCast_nonneg _⟩
  · rw [List.chain'_map]
    refine List.Chain'.imp ?_ (fromLayoutsGoNat_chain fields 0 1 h1)
    intro a b hab
    exact_mod_cast hab
  · exact List.forall₂_map_right_iff.2
      (forall₂_dvd_cast _ _ h0 (fromLayoutsGoNat_dvd fields 0 1))
  · intro o f hlast hflast
    rw [List.getLast?_map] at hlast
    cases hN1 : (fromLayoutsGoNat fields 0 1).1.getLast? with
    | none => rw [hN1] at hlast; simp at hlast
    | some oN =>
        rw [hN1] at hlast
        simp only [Option.map_some', Option.some.injEq] at hlast
        subst hlast
        have hmem : f ∈ fields := List.mem_of_mem_getLast? hflast
        have hfv := h f hmem
        have hNat := fromLayoutsGoNat_last fields 0 1 oN f hN1 hflast
        have hle : (fromLayoutsGoNat fields 0 1).2.1 ≤
            nextMultipleNat (fromLayoutsGoNat fields 0 1).2.1
              (fromLayoutsGoNat fields 0 1).2.2 :=
          le_nextMultipleNat _ _ ha1
        rw [← Int.toNat_of_nonneg hfv.1]
        exact_mod_cast
          (by omega : oN + f.size.toNat ≤
            nextMultipleNat (fromLayoutsGoNat fields 0 1).2.1
              (fromLayoutsGoNat fields 0 1).2.2)
  · exact_mod_cast ha1
  · intro f hf
    rw [← Int.toNat_of_nonneg (h0 f hf)]
    exact_mod_cast ha2 f hf
  · rcases ha3 with h' | ⟨f, hf, h'⟩
    · exact Or.inl (by rw [h']; norm_num)
    · exact Or.inr ⟨f, hf, by rw [h', Int.toNat_of_nonneg (h0 f hf)]⟩
  · rintro rfl
    rfl
  · exact Int.natCast_dvd_natCast.2 (nextMultipleNat_dvd _ _)

set_option maxRecDepth 4000 in
/-- Witness for `C4_tuple_layout_invariants` at the `test::mixed` field
list, whose accumulation stays far below `2^31`. -/
theorem C4_tuple_layout_invariants_witness :
    (∀ f ∈ [Layout.mk 1 1, Layout.mk 2 2, Layout.mk 3 1, Layout.mk 3 1,
        Layout.mk 8 4, Layout.mk 1 1], f.valid) ∧
    ((fromLayoutsGoNat [Layout.mk 1 1, Layout.mk 2 2, Layout.mk 3 1,
        Layout.mk 3 1, Layout.mk 8 4, Layout.mk 1 1] 0 1).2.1 +
      (fromLayoutsGoNat [Layout.mk 1 1, Layout.mk 2 2, Layout.mk 3 1,
        Layout.mk 3 1, Layout.mk 8 4, Layout.mk 1 1] 0 1).2.2 < 2147483648) ∧
    List.Chain' (· ≤ ·) (TupleLayout.fromLayouts
      [Layout.mk 1 1, Layout.mk 2 2, Layout.mk 3 1, Layout.mk 3 1,
        Layout.mk 8 4, Layout.mk 1 1]).offsets :=
  ⟨by decide, by decide, (C4_tuple_layout_invariants _ (by decide) (by decide)).1⟩

set_option maxRecDepth 4000 in
/-- C5: `TupleLayout::from_layouts` on the field layouts
`[(1,1),(2,2),(3,1),(3,1),(8,4),(1,1)]` returns offsets
`[0,2,4,7,12,20]` and total layout `(size 24, alignment 4)`,
i.e. left-to-right packing with per-field alignment and the final size
rounded up to the maximum field alignment. -/
theorem C5_tuple_layout_mixed :
    TupleLayout.fromLayouts
      [Layout.mk 1 1, Layout.mk 2 2, Layout.mk 3 1, Layout.mk 3 1,
        Layout.mk 8 4, Layout.mk 1 1] =
    { layout := Layout.mk 24 4, offsets := [0, 2, 4, 7, 12, 20] } := by
  decide

/-- C6: `Scope::find` returns the binding of the innermost scope of the
chain that declares the identifier, consults the root scope only if no
scope in the chain declares it, and returns `UndeclaredIdentifier`
otherwise; `Scope::declare` returns `IdentifierDeclaredTwice` exactly when
the identifier is already declared in that same scope, and succeeds
otherwise — in particular a declaration shadowing an outer scope
succeeds. -/
theorem C6_scope_find_declare {V : Type} (s : Scope V) (root : Option (Scope V))
    (id : ast.Identifier) (v : V) :
    (∀ w, Scope.find s root id = .ok w ↔
        Scope.lookupChain
          (s.chain ++ (match root with | some r => r.chain | none => []))
          id.string = some w)
  ∧ (Scope.find s root id = .error (.UndeclaredIdentifier id) ↔
      Scope.lookupChain
        (s.chain ++ (match root with | some r => r.chain | none => []))
        id.string = none)
  ∧ ((Scope.declare s id v).1 = .error (.IdentifierDeclaredTwice id) ↔
      Scope.mapGet s.values id.string ≠ none)
  ∧ ((Scope.declare s id v).1 = .ok () ↔
      Scope.mapGet s.values id.string = none) := by
  have hfind : Scope.find s root id =
      match Scope.lookupChain
          (s.chain ++ (match root with | some r => r.chain | none => []))
          id.string with
      | some w => .ok w
      | none => .error (.UndeclaredIdentifier id) := by
    cases root with
    | none => simpa using Scope.find_none_eq s id
    | some r => exact Scope.find_some_eq s r id
  obtain ⟨values, parent⟩ := s
  refine ⟨?_, ?_, ?_, ?_⟩
  · intro w
    rw [hfind]
    cases hc : Scope.lookupChain _ id.string <;> simp [hc]
  · rw [hfind]
    cases hc : Scope.lookupChain _ id.string <;> simp [hc]
  · simp only [Scope.declare, Scope.mapInsert_fst, Scope.values]
    cases hg : Scope.mapGet values id.string <;> simp [hg]
  · simp only [Scope.declare, Scope.mapInsert_fst, Scope.values]
    cases hg : Scope.mapGet values id.string <;> simp [hg]

/-- C9: when `Scope::declare` hits an identifier already declared in the
same scope it returns `IdentifierDeclaredTwice`, but the scope has already
been mutated: afterwards the identifier maps to the newly supplied value —
`declare` is not atomic on error. -/
theorem C9_declare_not_atomic {V : Type} (s : Scope V) (id : ast.Identifier)
    (v w : V) (h : Scope.mapGet s.values id.string = some w) :
    (Scope.declare s id v).1 = .error (.IdentifierDeclaredTwice id)
  ∧ Scope.mapGet ((Scope.declare s id v).2).values id.string = some v := by
  obtain ⟨values, parent⟩ := s
  simp only [Scope.values] at h
  constructor
  · simp [Scope.declare, Scope.mapInsert_fst, h]
  · simp [Scope.declare, Scope.mapInsert_fst, h, Scope.values,
      Scope.mapInsert_get]

/-- Witness for C9: re-declaring `x` in a one-entry scope errors but
overwrites the binding. -/
theorem C9_declare_not_atomic_witness :
    Scope.mapGet (Scope.mk [("x", 1)] none).values "x" = some 1
  ∧ ((Scope.declare (Scope.mk [("x", 1)] none) ⟨spanW, "x"⟩ 2).1 =
      .error (.IdentifierDeclaredTwice ⟨spanW, "x"⟩)
    ∧ Scope.mapGet ((Scope.declare (Scope.mk [("x", 1)] none)
        ⟨spanW, "x"⟩ 2).2).values "x" = some 2) :=
  ⟨by simp [Scope.values, Scope.mapGet],
    C9_declare_not_atomic (Scope.mk [("x", 1)] none) ⟨spanW, "x"⟩ 2 1
      (by simp [Scope.values, Scope.mapGet])⟩

/-- C1 counterexample: the claim states that `&x.f as T` parses as
`((&x).f) as T`; on the code it parses as `(&(x.f)) as T` — the level-3
`.f` postfix binds tighter than the level-2 `&` prefix, consistently with
the claim's own first example. -/
theorem C1_counterexample :
    parseExprS "&x.f as T" ≠ .ok (.castTo (.dotS (.ref (.var "x")) "f") "T")
  ∧ parseExprS "&x.f as T" = .ok (.castTo (.ref (.dotS (.var "x") "f")) "T") :=
  ⟨by decide, by rfl⟩

/-- C1 (amended): the parser's unary-expression layering applies the
collected prefix operators (level 2: `&`, `*` deref, unary `-`) and
postfix operators (level 3: call, `[idx]`, `.field`; level 1: `as`-cast)
last-to-first by comparing top-of-stack levels, so that the leading
level-3 postfix operators bind innermost, then the prefixes, then the
remaining postfix operators; hence `* & x.f` parses as `*( & (x.f) )` and
`&x.f as T` parses as `(&(x.f)) as T`. -/
theorem C1_unary_layering :
    (∀ (pre : List PreFixState) (post : List PostFixState) (e : ast.Expression),
      (∀ p ∈ pre, p.level = 2) →
      (∀ q ∈ post, q.level = postFixCastLevel ∨ q.level = postFixDefaultLevel) →
      applyUnaryOps pre post e = .ok
        (applyAllPost (post.dropWhile (fun q => q.level == postFixDefaultLevel))
          (applyAllPre pre
            (applyAllPost
              (post.takeWhile (fun q => q.level == postFixDefaultLevel)) e))))
  ∧ parseExprS "* & x.f" = .ok (.deref (.ref (.dotS (.var "x") "f")))
  ∧ parseExprS "&x.f as T" = .ok (.castTo (.ref (.dotS (.var "x") "f")) "T") := by
  refine ⟨?_, by rfl, by rfl⟩
  intro pre post e hpre hpost
  exact applyUnaryOpsGo_spec _ pre post e (by omega) hpre hpost

/-- Witness for C1 at a concrete stack: one collected `&` prefix, then a
`.f` field postfix and an `as int` cast postfix around the atom `7`. -/
theorem C1_unary_layering_witness :
    (∀ p ∈ [PreFixState.mk 2 posW .Ref], p.level = 2)
  ∧ (∀ q ∈ [PostFixState.mk 3 posW (.DotIndex (.Struct ⟨spanW, "f"⟩)),
        PostFixState.mk 1 posW (.Cast (.mk spanW .Int))],
      q.level = postFixCastLevel ∨ q.level = postFixDefaultLevel)
  ∧ applyUnaryOps [PreFixState.mk 2 posW .Ref]
      [PostFixState.mk 3 posW (.DotIndex (.Struct ⟨spanW, "f"⟩)),
        PostFixState.mk 1 posW (.Cast (.mk spanW .Int))]
      (.mk spanW (.IntLit "7")) = .ok
      (applyAllPost
        (List.dropWhile (fun q => q.level == postFixDefaultLevel)
          [PostFixState.mk 3 posW (.DotIndex (.Struct ⟨spanW, "f"⟩)),
            PostFixState.mk 1 posW (.Cast (.mk spanW .Int))])
        (applyAllPre [PreFixState.mk 2 posW .Ref]
          (applyAllPost
            (List.takeWhile (fun q => q.level == postFixDefaultLevel)
              [PostFixState.mk 3 posW (.DotIndex (.Struct ⟨spanW, "f"⟩)),
                PostFixState.mk 1 posW (.Cast (.mk spanW .Int))])
            (.mk spanW (.IntLit "7"))))) :=
  ⟨by decide, by decide,
    C1_unary_layering.1 [PreFixState.mk 2 posW .Ref]
      [PostFixState.mk 3 posW (.DotIndex (.Struct ⟨spanW, "f"⟩)),
        PostFixState.mk 1 posW (.Cast (.mk spanW .Int))]
      (.mk spanW (.IntLit "7")) (by decide) (by decide)⟩

/-- C10: `parse_module` is not total over syntactically well-formed source
text: it panics (rather than returning a `ParseError`) on a tuple dot-index
whose integer literal does not fit `u32` and on an array type whose length
literal exceeds the `u32` range, both through an unchecked
`parse().unwrap()`; the same inputs with in-range literals parse fine. -/
theorem C10_parse_module_panics :
    parseModule 0 "const c: int = x.9999999999;" 100 = .panic
  ∧ parseModule 0 "const c: [int; 9999999999] = 0;" 100 = .panic
  ∧ (parseModule 0 "const c: int = x.2;" 100).isOk = true
  ∧ (parseModule 0 "const c: [int; 42] = 0;" 100).isOk = true :=
  ⟨by rfl, by rfl, by rfl, by rfl⟩

theorem findIdx?_getD_eq_takeWhile_length {α : Type} (p : α → Bool)
    (l : List α) :
    (l.findIdx? p).getD l.length = (l.takeWhile (fun c => !p c)).length := by
  induction l with
  | nil => simp
  | cons c l ih =>
    rw [List.findIdx?_cons]
    by_cases h : p c
    · simp [h]
    · rw [if_neg (by simp [h]), List.findIdx?_succ]
      simp only [List.takeWhile_cons, h, Bool.not_false, if_true]
      cases hf : l.findIdx? p <;> simp [hf] at ih ⊢ <;> omega

theorem rfindNewline_eq_none (l : List Char)
    (h : ∀ c ∈ l, c ≠ '\n') : rfindNewline l = none := by
  unfold rfindNewline
  have : l.reverse.findIdx? (fun c => c = '\n') = none := by
    rw [List.findIdx?_eq_none_iff]
    intro c hc
    simp only [decide_eq_false_iff_not]
    exact h c (List.mem_reverse.1 hc)
  rw [this]
  rfl

theorem skipCount_no_newline (t : Tokenizer) (count : Nat)
    (h : ∀ c ∈ t.left.take count, c ≠ '\n') :
    t.skipCount count =
      (⟨t.left.take count⟩,
        { t with left := t.left.drop count,
                 pos := { t.pos with col := t.pos.col + count } }) := by
  simp only [Tokenizer.skipCount, rfindNewline_eq_none _ h]

/-- No pattern of the trivial-token table contains a newline, and none of
them produces a `StringLit` token. -/
theorem trivialTokenList_facts :
    (∀ q ∈ trivialTokenList, ∀ c ∈ q.1.toList, c ≠ '\n') ∧
    (∀ q ∈ trivialTokenList, q.2 ≠ TokenType.StringLit) := by
  constructor <;> decide

/-- Span/lexeme relation for one `Tokenizer::parse_next` step: every token
other than a string literal spans exactly its lexeme (same line, column
distance = lexeme length); a string-literal token without newlines spans
its lexeme plus the two quote characters. -/
theorem parseNext_span (t : Tokenizer) (tok : Token) (t' : Tokenizer)
    (h : t.parseNext = .ok (tok, t')) :
    (tok.ty ≠ .StringLit →
      tok.span.«end».col = tok.span.start.col + tok.string.length ∧
      tok.span.«end».line = tok.span.start.line)
  ∧ (tok.ty = .StringLit →
      (∀ c ∈ tok.string.toList, c ≠ '\n') →
      tok.span.«end».col = tok.span.start.col + tok.string.length + 2 ∧
      tok.span.«end».line = tok.span.start.line) := by
  unfold Tokenizer.parseNext at h
  cases hws : t.skipWhitespaceAndComments with
  | err e => rw [hws] at h; simp at h
  | panic => rw [hws] at h; simp at h
  | spin => rw [hws] at h; simp at h
  | ok t1 =>
    rw [hws] at h
    simp only [RRes.ok_bind] at h
    cases hl : t1.left with
    | nil =>
      rw [hl] at h
      simp only [List.head?, RRes.pure_def, RRes.ok.injEq, Prod.mk.injEq] at h
      obtain ⟨htok, -⟩ := h
      subst htok
      constructor
      · intro _
        simp [Token.eofToken, Span.emptyAt, String.length]
      · intro hc
        simp [Token.eofToken] at hc
    | cons peek rest =>
      rw [hl] at h
      simp only [List.head?] at h
      by_cases hd : rustIsAsciiDigit peek = true
      · -- number
        rw [if_pos hd] at h
        simp only [RRes.pure_def] at h
        rw [← hl] at h
        have hbridge :
            ((t1.left.findIdx? (fun c => !rustIsAsciiDigit c)).getD
              t1.left.length) =
            (t1.left.takeWhile rustIsAsciiDigit).length := by
          rw [findIdx?_getD_eq_takeWhile_length]
          simp [Bool.not_not]
        set E := ((t1.left.findIdx? (fun c => !rustIsAsciiDigit c)).getD
          t1.left.length) with hE
        have htake : t1.left.take E = t1.left.takeWhile rustIsAsciiDigit := by
          rw [hbridge]
          exact (List.prefix_iff_eq_take.1 (List.takeWhile_prefix _)).symm
        have hELe : E ≤ t1.left.length := by
          rw [hbridge]
          exact (List.takeWhile_prefix _).length_le
        have hnl : ∀ c ∈ t1.left.take E, c ≠ '\n' := by
          rw [htake]
          intro c hc hEq
          have hdig := List.mem_takeWhile_imp hc
          rw [hEq] at hdig
          exact absurd hdig (by decide)
        rw [skipCount_no_newline t1 E hnl] at h
        simp only [RRes.ok.injEq, Prod.mk.injEq] at h
        obtain ⟨htok, -⟩ := h
        subst htok
        refine ⟨fun _ => ?_, fun hc => by simp at hc⟩
        simp only [Span.new, String.length, List.length_take]
        refine ⟨by simp [Nat.min_eq_left hELe], by trivial⟩
      · rw [if_neg hd] at h
        by_cases ha : (rustIsAlphabetic peek || peek = '_') = true
        · -- identifier / keyword
          rw [if_pos ha] at h
          simp only [RRes.pure_def] at h
          rw [← hl] at h
          have hbridge :
              ((t1.left.findIdx?
                (fun c => !(rustIsAlphanumeric c || c = '_' || c = '@'))).getD
                t1.left.length) =
              (t1.left.takeWhile
                (fun c => rustIsAlphanumeric c || c = '_' || c = '@')).length := by
            rw [findIdx?_getD_eq_takeWhile_length]
            simp only [Bool.not_not]
          set E := ((t1.left.findIdx?
            (fun c => !(rustIsAlphanumeric c || c = '_' || c = '@'))).getD
            t1.left.length) with hE
          have htake : t1.left.take E =
              t1.left.takeWhile
                (fun c => rustIsAlphanumeric c || c = '_' || c = '@') := by
            rw [hbridge]
            exact (List.prefix_iff_eq_take.1 (List.takeWhile_prefix _)).symm
          have hELe : E ≤ t1.left.length := by
            rw [hbridge]
            exact (List.takeWhile_prefix _).length_le
          have hnl : ∀ c ∈ t1.left.take E, c ≠ '\n' := by
            rw [htake]
            intro c hc hEq
            have hal := List.mem_takeWhile_imp hc
            rw [hEq] at hal
            exact absurd hal (by decide)
          rw [skipCount_no_newline t1 E hnl] at h
          simp only [RRes.ok.injEq, Prod.mk.injEq] at h
          obtain ⟨htok, -⟩ := h
          subst htok
          have hty : (((trivialTokenList.find?
              (fun p => p.1 = String.mk (t1.left.take E))).map Prod.snd).getD
              TokenType.Id) ≠ TokenType.StringLit := by
            cases hf : trivialTokenList.find?
                (fun p => p.1 = String.mk (t1.left.take E)) with
            | none => simp
            | some q =>
              simp only [Option.map_some', Option.getD_some]
              exact trivialTokenList_facts.2 q (List.mem_of_find?_eq_some hf)
          refine ⟨fun _ => ?_, fun hc => absurd hc hty⟩
          simp only [Span.new, String.length, List.length_take]
          refine ⟨by simp [Nat.min_eq_left hELe], by trivial⟩
        · rw [if_neg ha] at h
          by_cases hq : peek = '"'
          · -- string literal
            rw [if_pos hq] at h
            cases hfi : (t1.left.drop 1).findIdx? (fun c => c = '"') with
            | none =>
              rw [← hl, hfi] at h
              simp at h
            | some i =>
              rw [← hl, hfi] at h
              simp only [RRes.pure_def] at h
              obtain ⟨hi, hqi, -⟩ := List.findIdx?_eq_some_iff_getElem.1 hfi
              have hqi' : (t1.left.drop 1)[i] = '"' := by simpa using hqi
              have hskip1 : (t1.skipCount (1 + i + 1)).1 =
                  String.mk (t1.left.take (1 + i + 1)) := rfl
              have hcontent :
                  ((t1.left.take (1 + i + 1)).drop 1).take (1 + i - 1) =
                  (t1.left.drop 1).take i := by
                rw [List.drop_take]
                rw [List.take_take]
                congr 1
                omega
              have htake2 : t1.left.take (1 + i + 1) =
                  '"' :: ((t1.left.drop 1).take i ++ ['"']) := by
                have h1 : 1 + i + 1 = 1 + (i + 1) := by omega
                rw [h1, List.take_add]
                have h2 : t1.left.take 1 = ['"'] := by
                  rw [hl, hq]
                  rfl
                have h3 : (t1.left.drop 1).take (i + 1) =
                    (t1.left.drop 1).take i ++ ['"'] := by
                  rw [List.take_succ, List.getElem?_eq_getElem hi, hqi']
                  rfl
                rw [h2, h3]
                rfl
              -- the token is fully determined; substitute it
              simp only [hskip1, String.toList, hcontent] at h
              simp only [RRes.ok.injEq, Prod.mk.injEq] at h
              obtain ⟨htok, -⟩ := h
              subst htok
              refine ⟨fun hne => absurd rfl hne, fun _ hnlc => ?_⟩
              have hnlc' : ∀ c ∈ (t1.left.drop 1).take i, c ≠ '\n' := by
                simpa [String.toList] using hnlc
              have hnl : ∀ c ∈ t1.left.take (1 + i + 1), c ≠ '\n' := by
                rw [htake2]
                intro c hc
                rcases List.mem_cons.1 hc with rfl | hc
                · decide
                · rcases List.mem_append.1 hc with hc | hc
                  · exact hnlc' c hc
                  · rcases List.mem_singleton.1 hc with rfl
                    decide
              rw [skipCount_no_newline t1 (1 + i + 1) hnl]
              have hilen : i ≤ (t1.left.drop 1).length := Nat.le_of_lt hi
              simp only [Span.new, String.length, List.length_take]
              constructor
              · simp only [Nat.min_eq_left hilen]
                omega
              · trivial
          · -- trivial token
            rw [if_neg hq] at h
            rw [← hl] at h
            cases hfp : trivialTokenList.find?
                (fun p => p.1.toList.isPrefixOf t1.left) with
            | none =>
              rw [hfp] at h
              simp at h
            | some q =>
              rw [hfp] at h
              simp only [RRes.pure_def] at h
              have hpred := List.find?_some hfp
              have hqmem := List.mem_of_find?_eq_some hfp
              have hpre : q.1.toList <+: t1.left :=
                List.isPrefixOf_iff_prefix.1 hpred
              have htake : t1.left.take q.1.length = q.1.toList := by
                have : q.1.length = q.1.toList.length := rfl
                rw [this]
                exact (List.prefix_iff_eq_take.1 hpre).symm
              have hnl : ∀ c ∈ t1.left.take q.1.length, c ≠ '\n' := by
                rw [htake]
                exact trivialTokenList_facts.1 q hqmem
              rw [skipCount_no_newline t1 q.1.length hnl] at h
              simp only [RRes.ok.injEq, Prod.mk.injEq] at h
              obtain ⟨htok, -⟩ := h
              subst htok
              refine ⟨fun _ => ⟨rfl, rfl⟩,
                fun hc => absurd hc (trivialTokenList_facts.2 q hqmem)⟩

/-- Every token of the stream produced by repeated `parse_next` satisfies
the span/lexeme relation. -/
theorem tokensGo_span :
    ∀ (fuel : Nat) (t : Tokenizer) (toks : List Token),
      tokensGo fuel t = .ok toks → ∀ tok ∈ toks, tokenSpanProp tok
  | 0, t, toks, h => by simp [tokensGo] at h
  | fuel + 1, t, toks, h => by
      rw [tokensGo] at h
      cases hp : t.parseNext with
      | err e => rw [hp] at h; simp at h
      | panic => rw [hp] at h; simp at h
      | spin => rw [hp] at h; simp at h
      | ok pr =>
        obtain ⟨tok0, t2⟩ := pr
        rw [hp] at h
        dsimp only at h
        by_cases he : tok0.ty = TokenType.Eof
        · rw [if_pos he] at h
          simp only [RRes.ok.injEq] at h
          subst h
          intro tok htok
          rcases List.mem_singleton.1 htok with rfl
          exact parseNext_span t tok t2 (by rw [hp])
        · rw [if_neg he] at h
          cases hrec : tokensGo fuel t2 with
          | err e => rw [hrec] at h; simp at h
          | panic => rw [hrec] at h; simp at h
          | spin => rw [hrec] at h; simp at h
          | ok rest =>
            rw [hrec] at h
            simp only [RRes.ok.injEq] at h
            subst h
            intro tok htok
            rcases List.mem_cons.1 htok with rfl | htok
            · exact parseNext_span t tok t2 (by rw [hp])
            · exact tokensGo_span fuel t2 rest hrec tok htok

/-- C8 counterexample: a string-literal token's span covers the two quote
characters as well, so its span distance exceeds the stored lexeme length:
lexing `"ab"` yields a `StringLit` token with lexeme `ab` (length 2) but
span columns 1..5 (distance 4). -/
theorem C8_counterexample :
    tokenize 0 "\"ab\"" = .ok
      [{ ty := .StringLit, string := "ab",
         span := ⟨⟨0, 1, 1⟩, ⟨0, 1, 5⟩⟩ },
       { ty := .Eof, string := "",
         span := ⟨⟨0, 1, 5⟩, ⟨0, 1, 5⟩⟩ }]
  ∧ (Span.mk ⟨0, 1, 1⟩ ⟨0, 1, 5⟩).«end».col -
      (Span.mk ⟨0, 1, 1⟩ ⟨0, 1, 5⟩).start.col ≠ ("ab" : String).length :=
  ⟨by rfl, by decide⟩

/-- C8 (amended): for every token produced by the lexer from a source
string, the token's span covers exactly its lexeme — same line and column
distance equal to the lexeme length — for every token except string
literals; a string-literal token stores its content without the quotes,
so (when the content has no newline) its span distance is the lexeme
length plus 2. -/
theorem C8_token_span (file : Nat) (src : String) (toks : List Token)
    (h : tokenize file src = .ok toks) :
    ∀ tok ∈ toks, tokenSpanProp tok :=
  tokensGo_span (src.length + 1) _ toks h

/-- Witness for C8 on the source `x`. -/
theorem C8_token_span_witness :
    tokenize 0 "x" = .ok xTokens ∧ ∀ tok ∈ xTokens, tokenSpanProp tok :=
  ⟨by rfl, C8_token_span 0 "x" xTokens (by rfl)⟩

/-- C3 counterexample: the per-function type walk panics on `let mut x = 1;`
instead of accepting it, while the identical declaration without `mut` is
processed normally (fresh declaration variable, integer-default variable for
the literal, one equality, binding added to the scope). -/
theorem C3_counterexample :
    TypeFuncState.visitStatement 2 stC3 (Scope.mk [] none)
      (.mk spanW (.Declaration declMutC3)) = .panic
  ∧ TypeFuncState.visitStatement 2 stC3 (Scope.mk [] none)
      (.mk spanW (.Declaration declImmC3)) =
      .ok (Scope.mk [("x", ScopedItem.Value (ScopedValue.TypeVar 0))] none,
        ⟨cst.Ty.Void, ⟨2, [Constraint.UnknownInt 1, Constraint.Equal 0 1]⟩⟩) :=
  ⟨rfl, rfl⟩

/-- C3 (amended): for every declaration statement with the `mutable` flag
set, the per-function type walk panics on the assertion
`assert!(!decl.mutable, "everything is mutable for now")`
(`src/front/type_func.rs` line 202) — whatever the walk state, scope, span,
remaining declaration fields and (positive) fuel; only declarations without
the flag are processed. -/
theorem C3_mutable_declaration_panics (fuel : Nat) (st : TypeFuncState)
    (scope : Scope ScopedItem) (span : Span) (decl : ast.Declaration)
    (hmut : decl.mutable = true) :
    TypeFuncState.visitStatement (fuel + 1) st scope
      (.mk span (.Declaration decl)) = .panic := by
  simp [TypeFuncState.visitStatement, typeFuncFns, hmut]

/-- `C3_mutable_declaration_panics` applied to `let mut x = 1;` in an empty
scope. -/
theorem C3_mutable_declaration_panics_witness :
    TypeFuncState.visitStatement 1 stC3 (Scope.mk [] none)
      (.mk spanW (.Declaration declMutC3)) = .panic :=
  C3_mutable_declaration_panics 0 stC3 (Scope.mk [] none) spanW declMutC3 rfl

/-- C2 counterexample: visiting the cast `x as int` succeeds even though the
target type is `int`: the appended constraints pin the *value* `x` (variable
4) to a pointer shape via the fresh pair 5/6, and pin the cast's result
variable 7 to the concrete non-pointer type `int` — no constraint requires
the cast target to be a pointer type. -/
theorem C2_counterexample :
    TypeFuncState.visitExpr 2 stC2 scopeC2 castC2 = .ok (7, stC2')
  ∧ (∀ u : TypeVar,
      Constraint.Known 7 (TypeInfoVar.Pointer u) ∉ stC2'.problem.constraints)
  ∧ ∀ t : cst.Ty, cst.Ty.Int ≠ cst.Ty.Pointer t := by
  refine ⟨rfl, ?_, ?_⟩
  · intro u
    simp [stC2']
  · intro t h
    exact cst.Ty.noConfusion h

/-- C2 (amended): for a cast `v as T`, the per-function type walk constrains
the *value* `v` to have some pointer type and gives the cast expression a
fresh variable fully known to the resolved target type `T`, with no pointer
constraint on `T`: whenever the cast visit succeeds, the value visit and the
type resolution succeeded, and exactly three constraints were appended —
`Known(m+1, Pointer(m))`, `Equal(v_ty, m+1)` and `KnownType(m+2, T)`, where
`m` is the next fresh variable after visiting the value; the cast's result
variable is `m+2`. -/
theorem C2_cast_constraints (fuel : Nat) (st : TypeFuncState)
    (scope : Scope ScopedItem) (span : Span) (value : ast.Expression)
    (ty : ast.Ty) (r : TypeVar) (st' : TypeFuncState)
    (h : TypeFuncState.visitExpr (fuel + 1) st scope
      (.mk span (.Cast value ty)) = .ok (r, st')) :
    ∃ v stv τ,
      TypeFuncState.visitExpr fuel st scope value = .ok (v, stv) ∧
      resolveType fuel scope ty = .ok τ ∧
      r = stv.problem.next + 2 ∧
      st'.retTy = stv.retTy ∧
      st'.problem.next = stv.problem.next + 3 ∧
      st'.problem.constraints = stv.problem.constraints ++
        [Constraint.Known (stv.problem.next + 1)
           (TypeInfoVar.Pointer stv.problem.next),
         Constraint.Equal v (stv.problem.next + 1),
         Constraint.KnownType (stv.problem.next + 2) τ] := by
  simp only [TypeFuncState.visitExpr, typeFuncFns] at h
  cases hv : (typeFuncFns fuel).visitExpr st scope value with
  | err e' => rw [hv] at h; simp at h
  | panic => rw [hv] at h; simp at h
  | spin => rw [hv] at h; simp at h
  | ok p =>
    obtain ⟨v, stv⟩ := p
    rw [hv] at h
    simp only [RRes.ok_bind] at h
    cases hr : resolveType fuel scope ty with
    | err e' => rw [hr] at h; simp at h
    | panic => rw [hr] at h; simp at h
    | spin => rw [hr] at h; simp at h
    | ok τ =>
      rw [hr] at h
      simp only [RRes.ok_bind, RRes.ok.injEq, Prod.mk.injEq] at h
      obtain ⟨h1, h2⟩ := h
      subst h1
      subst h2
      refine ⟨v, stv, τ, hv, rfl, rfl, rfl, rfl, ?_⟩
      simp [TypeProblem.unknown, TypeProblem.known, TypeProblem.equal,
        TypeProblem.fullyKnown]

/-- `C2_cast_constraints` applied to `x as int` with `x` bound to solver
variable 4 and next fresh variable 5. -/
theorem C2_cast_constraints_witness :
    ∃ v stv τ,
      TypeFuncState.visitExpr 1 stC2 scopeC2 valueC2 = .ok (v, stv) ∧
      resolveType 1 scopeC2 tyIntC2 = .ok τ ∧
      7 = stv.problem.next + 2 ∧
      stC2'.retTy = stv.retTy ∧
      stC2'.problem.next = stv.problem.next + 3 ∧
      stC2'.problem.constraints = stv.problem.constraints ++
        [Constraint.Known (stv.problem.next + 1)
           (TypeInfoVar.Pointer stv.problem.next),
         Constraint.Equal v (stv.problem.next + 1),
         Constraint.KnownType (stv.problem.next + 2) τ] :=
  C2_cast_constraints 1 stC2 scopeC2 spanW valueC2 tyIntC2 7 stC2' rfl

/-- C7: for a module-level constant whose initializer is an integer literal
and whose resolved declared type is an integer type (`byte` or `int`),
`map_constant` returns `Right` of an IR constant holding the literal text
parsed as an `i32` (typed at the IR integer width 8 or 32 matching the
declared type) when the text parses, and returns the structured error
`InvalidLiteral` carrying the literal's span, text and formatted type — a
returned error, not a panic — exactly when the text does not parse as an
`i32`. -/
theorem C7_map_constant_int_literal (fuel : Nat) (decl : ConstDecl)
    (text : String) (hf : 0 < fuel)
    (hinit : decl.ast.init.kind = ast.ExpressionKind.IntLit text)
    (hty : decl.ty = cst.Ty.Byte ∨ decl.ty = cst.Ty.Int) :
    (∀ v : Int, rustParseI32 text = some v →
      ∃ bits, ((decl.ty = cst.Ty.Byte ∧ bits = 8) ∨
               (decl.ty = cst.Ty.Int ∧ bits = 32)) ∧
        mapConstant fuel decl =
          .ok (.Right ⟨decl.ty, .Const (.Integer bits) v⟩))
  ∧ (rustParseI32 text = none →
      mapConstant fuel decl =
        .err (.InvalidLiteral decl.ast.init.span text decl.ty.format)) := by
  obtain ⟨fuel, rfl⟩ : ∃ n, fuel = n + 1 := ⟨fuel - 1, by omega⟩
  constructor
  · intro v hv
    rcases hty with hty | hty
    · refine ⟨8, Or.inl ⟨hty, rfl⟩, ?_⟩
      simp only [mapConstant, hinit, hty, checkIntegerType, liftE, hv,
        mapType, mapTypeFns, RRes.ok_bind]
    · refine ⟨32, Or.inr ⟨hty, rfl⟩, ?_⟩
      simp only [mapConstant, hinit, hty, checkIntegerType, liftE, hv,
        mapType, mapTypeFns, RRes.ok_bind]
  · intro hn
    rcases hty with hty | hty <;>
      simp only [mapConstant, hinit, hty, checkIntegerType, liftE, hn,
        RRes.ok_bind]

/-- `C7_map_constant_int_literal` applied to `const c: int = 12;` (the text
parses as an `i32`) and to `const c: int = 9999999999;` (it does not). -/
theorem C7_map_constant_int_literal_witness :
    (∃ bits, (((constDeclW "12").ty = cst.Ty.Byte ∧ bits = 8) ∨
              ((constDeclW "12").ty = cst.Ty.Int ∧ bits = 32)) ∧
      mapConstant 1 (constDeclW "12") =
        .ok (.Right ⟨cst.Ty.Int, .Const (.Integer bits) 12⟩))
  ∧ mapConstant 1 (constDeclW "9999999999") =
      .err (.InvalidLiteral spanW "9999999999" cst.Ty.Int.format) := by
  constructor
  · exact (C7_map_constant_int_literal 1 (constDeclW "12") "12"
      (by decide) rfl (Or.inr rfl)).1 12 rfl
  · exact (C7_map_constant_int_literal 1 (constDeclW "9999999999")
      "9999999999" (by decide) rfl (Or.inr rfl)).2 rfl
